import Mathlib

/-!
# Frame pacing of the DX12 command-queue context

A shallow embedding of `Gems/Atom/RHI/DX12/Code/Source/RHI/CommandQueueContext.cpp`.

The context owns one command queue per hardware queue class, a ring of per-frame fence
sets, one long-lived "compiled" fence set and the current ring index.  Every member function
of the context is a function on `Machine`: the members of the context together with the
list of calls the context has made into its collaborators (fences, fence sets, command
queues), in program order.  Reads through a null queue pointer, reads outside the ring and a
zero modulus are undefined behaviour in the source; here they are the `Fault` results.
-/

namespace AZ.DX12

/-! ## Hardware queue classes and fixed arrays indexed by them -/

/-- The classes of hardware queue: `RHI::HardwareQueueClass`, in index order. -/
inductive HardwareQueueClass where
  | Graphics
  | Compute
  | Copy
  deriving DecidableEq, Repr, Inhabited

/-- The number of hardware queue classes: `RHI::HardwareQueueClassCount`. -/
def HardwareQueueClassCount : Nat := 3

/-- The array index of a class: `static_cast<uint32_t>(hardwareQueueClass)`. -/
def HardwareQueueClass.toIdx : HardwareQueueClass → Nat
  | .Graphics => 0
  | .Compute => 1
  | .Copy => 2

/-- The classes visited by `for (idx = 0; idx < HardwareQueueClassCount; ++idx)`, each index
cast back to its class. -/
def HardwareQueueClass.all : List HardwareQueueClass :=
  [.Graphics, .Compute, .Copy]

/-- A fixed array with one element per hardware queue class. -/
structure PerClass (α : Type) where
  graphics : α
  compute : α
  copy : α
  deriving DecidableEq, Repr, Inhabited

/-- Array read `a[static_cast<uint32_t>(c)]`. -/
def PerClass.get {α : Type} (a : PerClass α) : HardwareQueueClass → α
  | .Graphics => a.graphics
  | .Compute => a.compute
  | .Copy => a.copy

/-- Array write `a[static_cast<uint32_t>(c)] = v`. -/
def PerClass.set {α : Type} (a : PerClass α) (c : HardwareQueueClass) (v : α) : PerClass α :=
  match c with
  | .Graphics => { a with graphics := v }
  | .Compute => { a with compute := v }
  | .Copy => { a with copy := v }

/-- The same value in every element. -/
def PerClass.fill {α : Type} (v : α) : PerClass α :=
  { graphics := v, compute := v, copy := v }

/-- Apply a function to every element. -/
def PerClass.map {α β : Type} (f : α → β) (a : PerClass α) : PerClass β :=
  { graphics := f a.graphics, compute := f a.compute, copy := f a.copy }

/-! ## Fences and fence sets -/

/-- The two fence states: `RHI::FenceState`. -/
inductive FenceState where
  | Reset
  | Signaled
  deriving DecidableEq, Repr, Inhabited

/-- Modelled from the spec: the class `Fence` is declared outside the sources.  A fence has a
completion state in {Reset, Signaled} and a current target value. -/
structure Fence where
  state : FenceState
  target : Nat
  deriving DecidableEq, Repr, Inhabited

/-- Modelled from the spec: `Fence::Init(state)` constructs the counter; the given state says
whether the fence begins already satisfied. -/
def Fence.Init (initialState : FenceState) : Fence :=
  { state := initialState, target := 0 }

/-- Modelled from the spec: `Fence::Increment` advances the target and returns the new
target; it is CPU-side only. -/
def Fence.Increment (f : Fence) : Nat × Fence :=
  (f.target + 1, { f with target := f.target + 1 })

/-- Modelled from the spec: `Fence::Wait` returns once the fence is observed signaled (the
blocking itself, and a device that never signals, are outside this model). -/
def Fence.Wait (f : Fence) : Fence :=
  { f with state := FenceState.Signaled }

/-- Modelled from the spec: `Fence::Reset` clears the completion state. -/
def Fence.Reset (f : Fence) : Fence :=
  { f with state := FenceState.Reset }

/-- Modelled from the spec: the class `FenceSet` is declared outside the sources; it is a
fixed array of one fence per hardware queue class. -/
abbrev FenceSet := PerClass Fence

/-- Modelled from the spec: `FenceSet::Init` initialises one fence per class with the given
initial state. -/
def FenceSet.Init (initialState : FenceState) : FenceSet :=
  PerClass.fill (Fence.Init initialState)

/-- Modelled from the spec: `FenceSet::GetFence` is a pure lookup. -/
def FenceSet.GetFence (fs : FenceSet) (c : HardwareQueueClass) : Fence :=
  PerClass.get fs c

/-- Modelled from the spec: `FenceSet::Wait` waits on all member fences. -/
def FenceSet.Wait (fs : FenceSet) : FenceSet :=
  PerClass.map Fence.Wait fs

/-- Modelled from the spec: `FenceSet::Reset` resets all member fences. -/
def FenceSet.Reset (fs : FenceSet) : FenceSet :=
  PerClass.map Fence.Reset fs

/-! ## Command queues -/

/-- The subclass of a queue: `HardwareQueueSubclass`. -/
inductive HardwareQueueSubclass where
  | Primary
  | Secondary
  deriving DecidableEq, Repr, Inhabited

/-- The descriptor filled in by `CommandQueueContext::Init`. -/
structure CommandQueueDescriptor where
  m_hardwareQueueClass : HardwareQueueClass
  m_hardwareQueueSubclass : HardwareQueueSubclass
  deriving DecidableEq, Repr, Inhabited

/-- Modelled from the spec: the type `AZStd::sys_time_t` of the durations is declared
outside the sources; it is a signed 64-bit integer.  `wrapSysTime` brings the result of an
addition back into that range, as the machine addition does (two's complement; in the source
language the overflow itself is undefined). -/
def wrapSysTime (x : Int) : Int :=
  (x + 9223372036854775808) % 18446744073709551616 - 9223372036854775808

/-- Modelled from the spec: the class `CommandQueue` is declared outside the sources.  The
context reads its name and its two last durations (`AZStd::sys_time_t`), and configures it
with a descriptor. -/
structure CommandQueue where
  name : String
  descriptor : Option CommandQueueDescriptor
  lastExecuteDuration : Int
  lastPresentDuration : Int
  deriving DecidableEq, Repr, Inhabited

/-- Modelled from the spec: `CommandQueue::Create` makes a fresh, unconfigured queue. -/
def CommandQueue.Create : CommandQueue :=
  { name := "", descriptor := none, lastExecuteDuration := 0, lastPresentDuration := 0 }

/-- Modelled from the spec: `CommandQueue::SetName`. -/
def CommandQueue.SetName (q : CommandQueue) (n : String) : CommandQueue :=
  { q with name := n }

/-- Modelled from the spec: `CommandQueue::Init(device, descriptor)`. -/
def CommandQueue.Init (q : CommandQueue) (d : CommandQueueDescriptor) : CommandQueue :=
  { q with descriptor := some d }

/-- Modelled from the spec: `CommandQueue::ClearTimers` resets the accumulated per-frame
timing counters. -/
def CommandQueue.ClearTimers (q : CommandQueue) : CommandQueue :=
  { q with lastExecuteDuration := 0, lastPresentDuration := 0 }

/-- A prepared batch of GPU work (`ExecuteWorkRequest`), identified by a number. -/
abbrev ExecuteWorkRequest := Nat

/-- The table `EventTrace::GpuQueueNames`. -/
def GpuQueueNames : List String :=
  ["Graphics Queue", "Compute Queue", "Copy Queue"]

/-- The table `EventTrace::GpuQueueIds` (thread ids of the Graphics and Compute queues). -/
def GpuQueueIds : List Nat :=
  [2, 3]

/-! ## The context, the calls it makes, and its faults -/

/-- Which fence set a call is made on: a slot of the frame ring or the compiled set. -/
inductive FenceSetRef where
  | frame (slot : Nat)
  | compiled
  deriving DecidableEq, Repr, Inhabited

/-- The effects of the context that a trace records, one constructor per callee: calls
on a fence set, calls on the command queue of a class, the thread-name broadcast, and the
store to `m_currentFrameIndex`. -/
inductive Call where
  | FenceSetInit (fs : FenceSetRef) (initialState : FenceState)
  | FenceSetShutdown (fs : FenceSetRef)
  | FenceSetWait (fs : FenceSetRef)
  | FenceSetReset (fs : FenceSetRef)
  | FenceIncrement (fs : FenceSetRef) (c : HardwareQueueClass)
  | QueueSetName (queue : HardwareQueueClass) (name : String)
  | QueueInit (queue : HardwareQueueClass) (d : CommandQueueDescriptor)
  | QueueGpuSignal (queue : HardwareQueueClass) (fs : FenceSetRef) (c : HardwareQueueClass)
  | FlushCommands (queue : HardwareQueueClass)
  | CalibrateClock (queue : HardwareQueueClass)
  | ClearTimers (queue : HardwareQueueClass)
  | QueueWaitForIdle (queue : HardwareQueueClass)
  | QueueExecuteWork (queue : HardwareQueueClass) (request : ExecuteWorkRequest)
  | SetThreadName (id : Nat) (name : String)
  | StoreFrameIndex (value : Nat)
  deriving DecidableEq, Repr, Inhabited

/-- The undefined behaviours of the source that the model makes explicit. -/
inductive Fault where
  | nullQueue (c : HardwareQueueClass)
  | ringOutOfBounds (index : Nat)
  | zeroModulus
  | queueOutOfBounds (index : Nat)
  deriving DecidableEq, Repr, Inhabited

/-- The data members of `CommandQueueContext`. -/
structure Context where
  m_commandQueues : PerClass (Option CommandQueue)
  m_frameFences : List FenceSet
  m_compiledFences : FenceSet
  m_currentFrameIndex : Nat
  deriving DecidableEq, Repr, Inhabited

/-- A context together with the calls it has made so far, oldest first. -/
structure Machine where
  ctx : Context
  trace : List Call
  deriving DecidableEq, Repr, Inhabited

/-- The number of values of `uint32_t`. -/
def uint32Size : Nat := 4294967296

/-- Record one call. -/
def Machine.emit (m : Machine) (call : Call) : Machine :=
  { m with trace := m.trace ++ [call] }

/-- The call `m_commandQueues[c]->f()`: a fault on a null pointer, otherwise the call is
recorded and the queue updated by `f`. -/
def onQueue (c : HardwareQueueClass) (call : Call) (f : CommandQueue → CommandQueue)
    (m : Machine) : Except Fault Machine :=
  match m.ctx.m_commandQueues.get c with
  | none => .error (.nullQueue c)
  | some q =>
    .ok { ctx := { m.ctx with m_commandQueues := m.ctx.m_commandQueues.set c (some (f q)) },
          trace := m.trace ++ [call] }

/-- The loop `for (idx = 0; idx < HardwareQueueClassCount; ++idx) m_commandQueues[idx]->f()`:
the call is made on the queue of every class, in index order. -/
def forEachQueue (call : HardwareQueueClass → Call) (f : CommandQueue → CommandQueue)
    (m : Machine) : Except Fault Machine :=
  HardwareQueueClass.all.foldlM (fun m c => onQueue c (call c) f m) m

/-- The vector read `m_frameFences[i]`. -/
def ringGet (m : Machine) (i : Nat) : Except Fault FenceSet :=
  match m.ctx.m_frameFences[i]? with
  | none => .error (.ringOutOfBounds i)
  | some fs => .ok fs

/-- Replace the fence set in ring slot `i`. -/
def ringSet (m : Machine) (i : Nat) (fs : FenceSet) : Machine :=
  { m with ctx := { m.ctx with m_frameFences := m.ctx.m_frameFences.set i fs } }

/-- The vector operation `resize(n)`: keep the first `n` elements, pad with
default-constructed ones. -/
def resize (xs : List FenceSet) (n : Nat) : List FenceSet :=
  xs.take n ++ List.replicate (n - xs.length) default

/-! ## The member functions of `CommandQueueContext` -/

/-- `CommandQueueContext::CalibrateClocks`. -/
def CalibrateClocks (m : Machine) : Except Fault Machine :=
  forEachQueue Call.CalibrateClock id m

/-- One iteration of the queue loop of `Init`: create, name and initialise the queue. -/
def initQueue (m : Machine) (c : HardwareQueueClass) : Except Fault Machine := do
  let m1 : Machine :=
    { m with ctx := { m.ctx with
        m_commandQueues := m.ctx.m_commandQueues.set c (some CommandQueue.Create) } }
  let commandQueueDesc : CommandQueueDescriptor :=
    { m_hardwareQueueClass := c, m_hardwareQueueSubclass := .Primary }
  let name := GpuQueueNames.getD c.toIdx ""
  let m2 ← onQueue c (.QueueSetName c name) (fun q => q.SetName name) m1
  onQueue c (.QueueInit c commandQueueDesc) (fun q => q.Init commandQueueDesc) m2

/-- `CommandQueueContext::Init`, for a given `RHI::Limits::Device::FrameCountMax` (a constant
declared outside the sources, taken as a parameter). -/
def Init (FrameCountMax : Nat) (m : Machine) : Except Fault Machine := do
  let n := FrameCountMax - 1
  let m1 : Machine :=
    { ctx := { m.ctx with
        m_currentFrameIndex := 0
        m_frameFences := (resize m.ctx.m_frameFences n).map
          (fun _ => FenceSet.Init .Signaled)
        m_compiledFences := FenceSet.Init .Reset },
      trace := m.trace ++ [.StoreFrameIndex 0]
        ++ (List.range n).map (fun k => Call.FenceSetInit (.frame k) .Signaled)
        ++ [.FenceSetInit .compiled .Reset] }
  let m2 ← HardwareQueueClass.all.foldlM initQueue m1
  let m3 := m2.emit (.SetThreadName (GpuQueueIds.getD HardwareQueueClass.Graphics.toIdx 0)
    (GpuQueueNames.getD HardwareQueueClass.Graphics.toIdx ""))
  let m4 := m3.emit (.SetThreadName (GpuQueueIds.getD HardwareQueueClass.Compute.toIdx 0)
    (GpuQueueNames.getD HardwareQueueClass.Compute.toIdx ""))
  CalibrateClocks m4

/-- `CommandQueueContext::WaitForIdle`: every non-null queue waits for idle. -/
def WaitForIdle (m : Machine) : Except Fault Machine :=
  HardwareQueueClass.all.foldlM
    (fun m c =>
      match m.ctx.m_commandQueues.get c with
      | none => .ok m
      | some _ => onQueue c (.QueueWaitForIdle c) id m) m

/-- `CommandQueueContext::Shutdown`. -/
def Shutdown (m : Machine) : Except Fault Machine := do
  let m1 ← WaitForIdle m
  let m2 := m1.emit (.FenceSetShutdown .compiled)
  let m3 : Machine :=
    { ctx := { m2.ctx with m_frameFences := [] },
      trace := m2.trace
        ++ (List.range m2.ctx.m_frameFences.length).map (fun k => Call.FenceSetShutdown (.frame k)) }
  .ok { m3 with ctx := { m3.ctx with m_commandQueues := PerClass.fill none } }

/-- `CommandQueueContext::QueueGpuSignals(fenceSet)`: each queue is asked to signal the fence
of its own class in the given fence set. -/
def QueueGpuSignals (fenceSet : FenceSetRef) (m : Machine) : Except Fault Machine :=
  forEachQueue (fun c => Call.QueueGpuSignal c fenceSet c) id m

/-- `CommandQueueContext::Begin`. -/
def Begin (m : Machine) : Except Fault Machine :=
  forEachQueue Call.ClearTimers CommandQueue.ClearTimers m

/-- `CommandQueueContext::IncrementFence`: increments the compiled fence of the class and
returns its new target. -/
def IncrementFence (hardwareQueueClass : HardwareQueueClass) (m : Machine) :
    Except Fault (Nat × Machine) :=
  let r := (m.ctx.m_compiledFences.GetFence hardwareQueueClass).Increment
  .ok (r.1,
    { ctx := { m.ctx with
        m_compiledFences := m.ctx.m_compiledFences.set hardwareQueueClass r.2 },
      trace := m.trace ++ [.FenceIncrement .compiled hardwareQueueClass] })

/-- `CommandQueueContext::End`. -/
def End (m : Machine) : Except Fault Machine := do
  let _ ← ringGet m m.ctx.m_currentFrameIndex
  let m1 ← QueueGpuSignals (.frame m.ctx.m_currentFrameIndex) m
  let m2 ← forEachQueue Call.FlushCommands id m1
  let size := m2.ctx.m_frameFences.length % uint32Size
  if size = 0 then
    .error .zeroModulus
  else
    let next := ((m2.ctx.m_currentFrameIndex + 1) % uint32Size) % size
    let m3 : Machine :=
      { ctx := { m2.ctx with m_currentFrameIndex := next },
        trace := m2.trace ++ [.StoreFrameIndex next] }
    let fs ← ringGet m3 next
    let m4 := (ringSet m3 next fs.Wait).emit (.FenceSetWait (.frame next))
    let fs1 ← ringGet m4 next
    let m5 := (ringSet m4 next fs1.Reset).emit (.FenceSetReset (.frame next))
    CalibrateClocks m5

/-- `CommandQueueContext::ExecuteWork`; `forceFlushScopes` says whether the build defines
`AZ_DX12_FORCE_FLUSH_SCOPES`. -/
def ExecuteWork (forceFlushScopes : Bool) (hardwareQueueClass : HardwareQueueClass)
    (request : ExecuteWorkRequest) (m : Machine) : Except Fault Machine := do
  let m1 ← onQueue hardwareQueueClass (.QueueExecuteWork hardwareQueueClass request) id m
  if forceFlushScopes then WaitForIdle m1 else .ok m1

/-- `CommandQueueContext::GetCommandQueue` for a class that is one of the three
enumerators: dereferences the queue pointer of the class.  `GetCommandQueueAt` is the same
member function for any value of the enumeration type. -/
def GetCommandQueue (hardwareQueueClass : HardwareQueueClass) (m : Machine) :
    Except Fault CommandQueue :=
  match m.ctx.m_commandQueues.get hardwareQueueClass with
  | none => .error (.nullQueue hardwareQueueClass)
  | some q => .ok q

/-- The element of `m_commandQueues` that `static_cast<uint32_t>(hardwareQueueClass)`
selects.  The source uses the value as an array index without a check, and the enumeration
type admits values other than its three enumerators: for a value outside 0..2 the read is
outside the array. -/
def classOfRaw (value : Nat) : Except Fault HardwareQueueClass :=
  match value with
  | 0 => .ok .Graphics
  | 1 => .ok .Compute
  | 2 => .ok .Copy
  | _ => .error (.queueOutOfBounds value)

/-- `CommandQueueContext::GetCommandQueue` for a class given by its value
`static_cast<uint32_t>(hardwareQueueClass)`: the array read, then the dereference. -/
def GetCommandQueueAt (value : Nat) (m : Machine) : Except Fault CommandQueue := do
  let c ← classOfRaw value
  GetCommandQueue c m

/-- `CommandQueueContext::ExecuteWork` for a class given by its value: the array read and
the dereference of `GetCommandQueue`, then the submission. -/
def ExecuteWorkAt (forceFlushScopes : Bool) (value : Nat) (request : ExecuteWorkRequest)
    (m : Machine) : Except Fault Machine := do
  let c ← classOfRaw value
  ExecuteWork forceFlushScopes c request m

/-- `CommandQueueContext::GetCompiledFences`. -/
def GetCompiledFences (m : Machine) : FenceSet :=
  m.ctx.m_compiledFences

/-- Modelled from the spec: the type `RHI::CpuTimingStatistics` is declared outside the
sources.  One entry of its `m_queueStatistics`: per queue, a name and a last execute
duration. -/
structure QueueStatistics where
  m_queueName : String
  m_executeDuration : Int
  deriving DecidableEq, Repr, Inhabited

/-- Modelled from the spec: the type `RHI::CpuTimingStatistics` is declared outside the
sources.  It holds the per-queue entries and the aggregate present duration; durations
are `AZStd::sys_time_t` values. -/
structure CpuTimingStatistics where
  m_queueStatistics : List QueueStatistics
  m_presentDuration : Int
  deriving DecidableEq, Repr, Inhabited

/-- Modelled from the spec: `CpuTimingStatistics::Reset`, declared outside the sources,
empties the statistics before they are populated again. -/
def CpuTimingStatistics.Reset ( _stats : CpuTimingStatistics) : CpuTimingStatistics :=
  { m_queueStatistics := [], m_presentDuration := 0 }

/-- `CommandQueueContext::UpdateCpuTimingStatistics`, a `const` member function: the context
is handed back as it was, next to the filled statistics. -/
def UpdateCpuTimingStatistics (cpuTimingStatistics : CpuTimingStatistics) (m : Machine) :
    Except Fault (CpuTimingStatistics × Machine) := do
  let stats0 := cpuTimingStatistics.Reset
  let r ← HardwareQueueClass.all.foldlM
    (fun (acc : CpuTimingStatistics × Int) c => do
      let q ← GetCommandQueue c m
      pure ({ acc.1 with m_queueStatistics :=
                acc.1.m_queueStatistics ++ [{ m_queueName := q.name,
                                              m_executeDuration := q.lastExecuteDuration }] },
            wrapSysTime (acc.2 + q.lastPresentDuration)))
    (stats0, 0)
  pure ({ r.1 with m_presentDuration := r.2 }, m)

/-! ## Runs -/

/-- The operations a caller can perform on the steady-state path. -/
inductive Op where
  | Begin
  | ExecuteWork (c : HardwareQueueClass) (request : ExecuteWorkRequest)
  | IncrementFence (c : HardwareQueueClass)
  | End
  deriving DecidableEq, Repr, Inhabited

/-- Perform one operation. -/
def step (forceFlushScopes : Bool) (m : Machine) : Op → Except Fault Machine
  | .Begin => Begin m
  | .ExecuteWork c r => ExecuteWork forceFlushScopes c r m
  | .IncrementFence c => (IncrementFence c m).map (fun r => r.2)
  | .End => End m

/-- Perform a sequence of operations, stopping at the first fault. -/
def run (forceFlushScopes : Bool) (m : Machine) (ops : List Op) : Except Fault Machine :=
  ops.foldlM (step forceFlushScopes) m

/-- The operations of one frame with the given submissions: Begin, the ExecuteWork calls,
End. -/
def frameOps (work : List (HardwareQueueClass × ExecuteWorkRequest)) : List Op :=
  [Op.Begin] ++ work.map (fun w => Op.ExecuteWork w.1 w.2) ++ [Op.End]

/-- Run a list of frames, each given by its submissions. -/
def runFrames (forceFlushScopes : Bool) (m : Machine)
    (frames : List (List (HardwareQueueClass × ExecuteWorkRequest))) : Except Fault Machine :=
  frames.foldlM (fun m work => run forceFlushScopes m (frameOps work)) m

/-- Call End `n` times in a row. -/
def runEnds (m : Machine) (n : Nat) : Except Fault Machine :=
  run false m (List.replicate n Op.End)

/-- The calls that one End makes when the index is `i` before and `next` after the advance. -/
def endCalls (i next : Nat) : List Call :=
  HardwareQueueClass.all.map (fun c => Call.QueueGpuSignal c (.frame i) c)
    ++ HardwareQueueClass.all.map Call.FlushCommands
    ++ [Call.StoreFrameIndex next, Call.FenceSetWait (.frame next), Call.FenceSetReset (.frame next)]
    ++ HardwareQueueClass.all.map Call.CalibrateClock

/-- The calls that the ExecuteWork calls of one frame make. -/
def workCalls (forceFlushScopes : Bool) :
    List (HardwareQueueClass × ExecuteWorkRequest) → List Call
  | [] => []
  | w :: ws =>
    (Call.QueueExecuteWork w.1 w.2 ::
      (if forceFlushScopes then HardwareQueueClass.all.map Call.QueueWaitForIdle else []))
      ++ workCalls forceFlushScopes ws

/-- An initialised context: every queue pointer is non-null, the ring is not empty, its size
fits `uint32_t`, and the current index is inside the ring. -/
def Initialised (m : Machine) : Prop :=
  m.ctx.m_commandQueues.graphics.isSome = true ∧
  m.ctx.m_commandQueues.compute.isSome = true ∧
  m.ctx.m_commandQueues.copy.isSome = true ∧
  0 < m.ctx.m_frameFences.length ∧
  m.ctx.m_frameFences.length < uint32Size ∧
  m.ctx.m_currentFrameIndex < m.ctx.m_frameFences.length

instance (m : Machine) : Decidable (Initialised m) := by
  unfold Initialised
  infer_instance

/-- The state in which End leaves an initialised context. -/
def endState (m : Machine) : Machine :=
  let next := (m.ctx.m_currentFrameIndex + 1) % m.ctx.m_frameFences.length
  { ctx := { m.ctx with
      m_currentFrameIndex := next
      m_frameFences := m.ctx.m_frameFences.set next
        (FenceSet.Reset (FenceSet.Wait (m.ctx.m_frameFences.getD next default))) },
    trace := m.trace ++ endCalls m.ctx.m_currentFrameIndex next }

/-- The state in which Begin leaves an initialised context. -/
def beginState (m : Machine) : Machine :=
  { ctx := { m.ctx with
      m_commandQueues := PerClass.map (Option.map CommandQueue.ClearTimers) m.ctx.m_commandQueues },
    trace := m.trace ++ HardwareQueueClass.all.map Call.ClearTimers }

/-- The state in which the ExecuteWork calls of one frame leave an initialised context. -/
def workState (forceFlushScopes : Bool) (m : Machine)
    (work : List (HardwareQueueClass × ExecuteWorkRequest)) : Machine :=
  { ctx := m.ctx, trace := m.trace ++ workCalls forceFlushScopes work }

/-- The state in which one whole frame leaves an initialised context. -/
def frameState (forceFlushScopes : Bool) (m : Machine)
    (work : List (HardwareQueueClass × ExecuteWorkRequest)) : Machine :=
  endState (workState forceFlushScopes (beginState m) work)

/-- The queue that Init leaves in the slot of class `c`. -/
def initQueueOf (c : HardwareQueueClass) (name : String) : CommandQueue :=
  { name := name,
    descriptor := some { m_hardwareQueueClass := c, m_hardwareQueueSubclass := .Primary },
    lastExecuteDuration := 0, lastPresentDuration := 0 }

/-- The calls that Init makes. -/
def initCalls (FrameCountMax : Nat) : List Call :=
  [Call.StoreFrameIndex 0]
    ++ (List.range (FrameCountMax - 1)).map (fun k => Call.FenceSetInit (.frame k) .Signaled)
    ++ [Call.FenceSetInit .compiled .Reset,
        Call.QueueSetName .Graphics "Graphics Queue",
        Call.QueueInit .Graphics
          { m_hardwareQueueClass := .Graphics, m_hardwareQueueSubclass := .Primary },
        Call.QueueSetName .Compute "Compute Queue",
        Call.QueueInit .Compute
          { m_hardwareQueueClass := .Compute, m_hardwareQueueSubclass := .Primary },
        Call.QueueSetName .Copy "Copy Queue",
        Call.QueueInit .Copy
          { m_hardwareQueueClass := .Copy, m_hardwareQueueSubclass := .Primary },
        Call.SetThreadName 2 "Graphics Queue",
        Call.SetThreadName 3 "Compute Queue",
        Call.CalibrateClock .Graphics,
        Call.CalibrateClock .Compute,
        Call.CalibrateClock .Copy]

/-- The state in which Init leaves any context. -/
def initState (FrameCountMax : Nat) (m : Machine) : Machine :=
  { ctx :=
      { m_commandQueues :=
          { graphics := some (initQueueOf .Graphics "Graphics Queue"),
            compute := some (initQueueOf .Compute "Compute Queue"),
            copy := some (initQueueOf .Copy "Copy Queue") },
        m_frameFences := List.replicate (FrameCountMax - 1) (FenceSet.Init .Signaled),
        m_compiledFences := FenceSet.Init .Reset,
        m_currentFrameIndex := 0 },
    trace := m.trace ++ initCalls FrameCountMax }

/-- The state in which IncrementFence leaves a context. -/
def incrementState (c : HardwareQueueClass) (m : Machine) : Machine :=
  { ctx := { m.ctx with
      m_compiledFences :=
        m.ctx.m_compiledFences.set c (m.ctx.m_compiledFences.GetFence c).Increment.2 },
    trace := m.trace ++ [Call.FenceIncrement .compiled c] }

/-- The state in which one operation leaves an initialised context. -/
def opState (ff : Bool) (m : Machine) : Op → Machine
  | .Begin => beginState m
  | .ExecuteWork c r => workState ff m [(c, r)]
  | .IncrementFence c => incrementState c m
  | .End => endState m

/-- The state in which a list of frames leaves an initialised context. -/
def framesState (ff : Bool) (m : Machine)
    (frames : List (List (HardwareQueueClass × ExecuteWorkRequest))) : Machine :=
  frames.foldl (frameState ff) m

/-! ## Observing a run -/

/-- The calls made during frame `n` (counted from 0) of a run of frames started at `m`: what
the trace gains between the start of frame `n` and the start of frame `n + 1`. -/
def callsOfFrame (forceFlushScopes : Bool) (m : Machine)
    (frames : List (List (HardwareQueueClass × ExecuteWorkRequest))) (n : Nat) :
    Except Fault (List Call) := do
  let a ← runFrames forceFlushScopes m (frames.take n)
  let b ← runFrames forceFlushScopes m (frames.take (n + 1))
  pure (b.trace.drop a.trace.length)

/-- The calls that one End makes on a given state. -/
def callsOfEnd (m : Machine) : Except Fault (List Call) := do
  let b ← End m
  pure (b.trace.drop m.trace.length)

/-- The fence sets named by the `QueueGpuSignal` calls of a trace, in order. -/
def gpuSignalSets (calls : List Call) : List FenceSetRef :=
  calls.filterMap (fun call =>
    match call with
    | .QueueGpuSignal _ fs _ => some fs
    | _ => none)

/-- The fence sets waited on in a trace, in order. -/
def fenceSetWaits (calls : List Call) : List FenceSetRef :=
  calls.filterMap (fun call =>
    match call with
    | .FenceSetWait fs => some fs
    | _ => none)

/-- The fence sets reset in a trace, in order. -/
def fenceSetResets (calls : List Call) : List FenceSetRef :=
  calls.filterMap (fun call =>
    match call with
    | .FenceSetReset fs => some fs
    | _ => none)

/-- The `QueueGpuSignal` calls of a trace, in order. -/
def gpuSignals (calls : List Call) : List Call :=
  calls.filter (fun call =>
    match call with
    | .QueueGpuSignal _ _ _ => true
    | _ => false)

/-- The `FenceSet::Init` calls of a trace, in order. -/
def fenceSetInits (calls : List Call) : List Call :=
  calls.filter (fun call =>
    match call with
    | .FenceSetInit _ _ => true
    | _ => false)

/-- The `FenceSet::Wait` and `FenceSet::Reset` calls of a trace, in order. -/
def waitResetCalls (calls : List Call) : List Call :=
  calls.filter (fun call =>
    match call with
    | .FenceSetWait _ => true
    | .FenceSetReset _ => true
    | _ => false)

/-- The five frames of Scenario A: one Graphics submission per frame. -/
def scenarioAFrames (r1 r2 r3 r4 r5 : ExecuteWorkRequest) :
    List (List (HardwareQueueClass × ExecuteWorkRequest)) :=
  [[(.Graphics, r1)], [(.Graphics, r2)], [(.Graphics, r3)], [(.Graphics, r4)],
   [(.Graphics, r5)]]

/-- The calls that a member function makes on a given state: what the trace gains. -/
def callsOf (f : Machine → Except Fault Machine) (m : Machine) : Except Fault (List Call) := do
  let b ← f m
  pure (b.trace.drop m.trace.length)

/-- Perform one operation and keep, next to the state, the values that the IncrementFence
calls have returned so far, each with its class, oldest first. -/
def stepCollect (forceFlushScopes : Bool) (acc : List (HardwareQueueClass × Nat) × Machine)
    (op : Op) : Except Fault (List (HardwareQueueClass × Nat) × Machine) :=
  match op with
  | .IncrementFence c => do
    let r ← IncrementFence c acc.2
    pure (acc.1 ++ [(c, r.1)], r.2)
  | other => do
    let m1 ← step forceFlushScopes acc.2 other
    pure (acc.1, m1)

/-- Perform a sequence of operations and collect the values returned by IncrementFence. -/
def runCollect (forceFlushScopes : Bool) (m : Machine) (ops : List Op) :
    Except Fault (List (HardwareQueueClass × Nat) × Machine) :=
  ops.foldlM (stepCollect forceFlushScopes) ([], m)

/-- The values returned for class `c`, oldest first. -/
def returnedFor (c : HardwareQueueClass) (rets : List (HardwareQueueClass × Nat)) : List Nat :=
  (rets.filter (fun r => r.1 = c)).map (fun r => r.2)

/-- The state and the collected values after one operation on an initialised context. -/
def collectState (ff : Bool) (acc : List (HardwareQueueClass × Nat) × Machine) (op : Op) :
    List (HardwareQueueClass × Nat) × Machine :=
  match op with
  | .IncrementFence c =>
    (acc.1 ++ [(c, (acc.2.ctx.m_compiledFences.GetFence c).Increment.1)], incrementState c acc.2)
  | other => (acc.1, opState ff acc.2 other)

/-- The requests handed to the queue of class `c` in a trace, in order. -/
def queueSubmissions (c : HardwareQueueClass) (calls : List Call) : List ExecuteWorkRequest :=
  calls.filterMap (fun call =>
    match call with
    | .QueueExecuteWork q r => if q = c then some r else none
    | _ => none)

/-- The requests that a sequence of operations submits for class `c`, in call order. -/
def opsSubmissions (c : HardwareQueueClass) (ops : List Op) : List ExecuteWorkRequest :=
  ops.filterMap (fun op =>
    match op with
    | .ExecuteWork q r => if q = c then some r else none
    | _ => none)

/-- The queues on which a trace calls `WaitForIdle`, in order. -/
def idleWaits (calls : List Call) : List HardwareQueueClass :=
  calls.filterMap (fun call =>
    match call with
    | .QueueWaitForIdle q => some q
    | _ => none)

/-- The classes whose queue pointer is non-null, in index order. -/
def liveClasses (m : Machine) : List HardwareQueueClass :=
  HardwareQueueClass.all.filter (fun c => (m.ctx.m_commandQueues.get c).isSome)

/-- The values collected for a class are strictly increasing and bounded by the current
target of the compiled fence of that class. -/
def Increasing (acc : List (HardwareQueueClass × Nat) × Machine) : Prop :=
  ∀ c, List.Pairwise (fun a b => a < b) (returnedFor c acc.1) ∧
    ∀ v, v ∈ returnedFor c acc.1 → v ≤ (acc.2.ctx.m_compiledFences.GetFence c).target

/-- The `SetName` and `Init` calls made on command queues in a trace, in order. -/
def queueSetupCalls (calls : List Call) : List Call :=
  calls.filter (fun call =>
    match call with
    | .QueueSetName _ _ => true
    | .QueueInit _ _ => true
    | _ => false)

/-- The calls that Shutdown makes on a given state. -/
def shutdownCalls (m : Machine) : List Call :=
  (liveClasses m).map Call.QueueWaitForIdle ++ [Call.FenceSetShutdown .compiled]
    ++ (List.range m.ctx.m_frameFences.length).map (fun k => Call.FenceSetShutdown (.frame k))

/-- The calls that one operation makes on an initialised context. -/
def opCalls (ff : Bool) (m : Machine) : Op → List Call
  | .Begin => HardwareQueueClass.all.map Call.ClearTimers
  | .ExecuteWork c r => workCalls ff [(c, r)]
  | .IncrementFence c => [Call.FenceIncrement .compiled c]
  | .End => endCalls m.ctx.m_currentFrameIndex
      ((m.ctx.m_currentFrameIndex + 1) % m.ctx.m_frameFences.length)

/-- The calls that a sequence of operations makes on an initialised context. -/
def runCalls (ff : Bool) : Machine → List Op → List Call
  | _, [] => []
  | m, op :: ops => opCalls ff m op ++ runCalls ff (opState ff m op) ops

/-- An initialised context whose three queues have different durations on record. -/
def timedMachine : Machine :=
  { ctx :=
      { m_commandQueues :=
          { graphics := some { initQueueOf .Graphics "Graphics Queue" with
              lastExecuteDuration := 40, lastPresentDuration := 5 },
            compute := some { initQueueOf .Compute "Compute Queue" with
              lastExecuteDuration := 30, lastPresentDuration := 7 },
            copy := some { initQueueOf .Copy "Copy Queue" with
              lastExecuteDuration := 20, lastPresentDuration := 11 } },
        m_frameFences := List.replicate 2 (FenceSet.Init .Signaled),
        m_compiledFences := FenceSet.Init .Reset,
        m_currentFrameIndex := 1 },
    trace := [] }

/-- An initialised context whose three queues each have the last present duration 2^62. -/
def longPresentMachine : Machine :=
  { ctx :=
      { m_commandQueues :=
          { graphics := some { initQueueOf .Graphics "Graphics Queue" with
              lastPresentDuration := 4611686018427387904 },
            compute := some { initQueueOf .Compute "Compute Queue" with
              lastPresentDuration := 4611686018427387904 },
            copy := some { initQueueOf .Copy "Copy Queue" with
              lastPresentDuration := 4611686018427387904 } },
        m_frameFences := List.replicate 2 (FenceSet.Init .Signaled),
        m_compiledFences := FenceSet.Init .Reset,
        m_currentFrameIndex := 0 },
    trace := [] }

/-! ## Every member function as an operation -/

/-- The member functions of the context that change it or call into its collaborators,
the steady-state ones wrapped from `Op`. -/
inductive ContextOp where
  | Init (FrameCountMax : Nat)
  | Shutdown
  | WaitForIdle
  | UpdateCpuTimingStatistics (stats : CpuTimingStatistics)
  | steady (op : Op)
  deriving DecidableEq, Repr, Inhabited

/-- Perform one member function. -/
def stepAny (forceFlushScopes : Bool) (m : Machine) : ContextOp → Except Fault Machine
  | .Init n => Init n m
  | .Shutdown => Shutdown m
  | .WaitForIdle => WaitForIdle m
  | .UpdateCpuTimingStatistics stats => (UpdateCpuTimingStatistics stats m).map (fun r => r.2)
  | .steady op => step forceFlushScopes m op

/-- Perform a sequence of member functions, stopping at the first fault. -/
def runAny (forceFlushScopes : Bool) (m : Machine) (ops : List ContextOp) :
    Except Fault Machine :=
  ops.foldlM (stepAny forceFlushScopes) m

/-- Perform one member function and keep, next to the state, the values that the
IncrementFence calls have returned so far, each with its class, oldest first. -/
def stepAnyCollect (forceFlushScopes : Bool)
    (acc : List (HardwareQueueClass × Nat) × Machine) (op : ContextOp) :
    Except Fault (List (HardwareQueueClass × Nat) × Machine) :=
  match op with
  | .steady sop => stepCollect forceFlushScopes acc sop
  | other => do
    let m1 ← stepAny forceFlushScopes acc.2 other
    pure (acc.1, m1)

/-- Perform a sequence of member functions and collect the values returned by
IncrementFence. -/
def runAnyCollect (forceFlushScopes : Bool) (m : Machine) (ops : List ContextOp) :
    Except Fault (List (HardwareQueueClass × Nat) × Machine) :=
  ops.foldlM (stepAnyCollect forceFlushScopes) ([], m)

/-- Every Reset in the trace is on a fence set of the frame ring and stands right after a
Wait on that same fence set. -/
def ResetsFollowWaits (calls : List Call) : Prop :=
  ∀ i fs, calls[i]? = some (Call.FenceSetReset fs) →
    (∃ slot, fs = FenceSetRef.frame slot) ∧ 0 < i ∧ calls[i - 1]? = some (Call.FenceSetWait fs)

/-- What a trace does to the fence set of one ring slot. -/
inductive SlotEvent where
  | signal (c : HardwareQueueClass)
  | wait
  | reset
  deriving DecidableEq, Repr, Inhabited

/-- The events of a trace on the fence set of ring slot `s`, in order. -/
def slotEvents (s : Nat) (calls : List Call) : List SlotEvent :=
  calls.filterMap (fun call =>
    match call with
    | .QueueGpuSignal _ (.frame k) c => if k = s then some (SlotEvent.signal c) else none
    | .FenceSetWait (.frame k) => if k = s then some SlotEvent.wait else none
    | .FenceSetReset (.frame k) => if k = s then some SlotEvent.reset else none
    | _ => none)

/-- Where a ring slot stands in its cycle: free to be signaled, signaled for Graphics only,
for Graphics and Compute, for all three classes, or waited on and about to be reset. -/
inductive SlotPhase where
  | ready
  | signaledGraphics
  | signaledCompute
  | signaled
  | waited
  deriving DecidableEq, Repr, Inhabited

/-- One step of the cycle signal (Graphics, Compute, Copy), wait, reset; any other event is
a violation. -/
def SlotPhase.advance : SlotPhase → SlotEvent → Option SlotPhase
  | .ready, .signal .Graphics => some .signaledGraphics
  | .signaledGraphics, .signal .Compute => some .signaledCompute
  | .signaledCompute, .signal .Copy => some .signaled
  | .signaled, .wait => some .waited
  | .waited, .reset => some .ready
  | _, _ => none

/-- Follow the cycle along a list of events; `none` when signals and wait-then-reset do not
alternate. -/
def alternates (p : SlotPhase) (events : List SlotEvent) : Option SlotPhase :=
  events.foldlM SlotPhase.advance p

/-- The phase in which Init leaves a slot for the run that follows: slot 0 is signaled
first, every other slot is waited on first. -/
def startPhase (s : Nat) : SlotPhase :=
  if s = 0 then .ready else .signaled

/-- The phase of slot `s` between two operations: the current slot is free, every other one
is signaled. -/
def phaseAt (m : Machine) (s : Nat) : SlotPhase :=
  if s = m.ctx.m_currentFrameIndex then .ready else .signaled

end AZ.DX12

/-! # Other components of the repository -/

namespace ScriptCanvas

/-- Modelled from the spec: the type `VariableId` is declared outside the sources; a
variable id is an opaque identifier, here a number. -/
structure VariableId where
  m_id : Nat
  deriving DecidableEq, Repr, Inhabited

/-- Modelled from the spec: `VariableId::ToString`, declared outside the sources. -/
def VariableId.ToString (v : VariableId) : String :=
  toString v.m_id

/-- Modelled from the spec: the enumeration `ValidationSeverity` is declared outside the
sources. -/
inductive ValidationSeverity where
  | Unknown
  | Error
  | Warning
  | Informative
  deriving DecidableEq, Repr, Inhabited

/-- Modelled from the spec: the base class `ValidationEvent` is declared outside the
sources; it keeps the severity given to its constructor and a description. -/
structure ValidationEvent where
  m_severity : ValidationSeverity
  m_description : String
  deriving DecidableEq, Repr, Inhabited

/-- Modelled from the spec: `ValidationEvent::GetSeverity`. -/
def ValidationEvent.GetSeverity (e : ValidationEvent) : ValidationSeverity :=
  e.m_severity

/-- The class `InvalidVariableTypeEvent`: a validation event with a variable id. -/
structure InvalidVariableTypeEvent extends ValidationEvent where
  m_variableId : VariableId
  deriving DecidableEq, Repr, Inhabited

/-- The constructor `InvalidVariableTypeEvent(variableId)`. -/
def InvalidVariableTypeEvent.new (variableId : VariableId) : InvalidVariableTypeEvent :=
  { m_severity := ValidationSeverity.Error,
    m_description := "Variable with id " ++ variableId.ToString ++ " has an invalid type.",
    m_variableId := variableId }

/-- `InvalidVariableTypeEvent::CanAutoFix`. -/
def InvalidVariableTypeEvent.CanAutoFix ( _e : InvalidVariableTypeEvent) : Bool :=
  true

/-- `InvalidVariableTypeEvent::GetVariableId`. -/
def InvalidVariableTypeEvent.GetVariableId (e : InvalidVariableTypeEvent) : VariableId :=
  e.m_variableId

/-- `InvalidVariableTypeEvent::GetHighlightVariableId`, the override of
`HighlightVariableEffect`. -/
def InvalidVariableTypeEvent.GetHighlightVariableId (e : InvalidVariableTypeEvent) :
    VariableId :=
  e.m_variableId

/-- `InvalidVariableTypeEvent::GetTooltip`. -/
def InvalidVariableTypeEvent.GetTooltip ( _e : InvalidVariableTypeEvent) : String :=
  "Invalid type for variable, auto fixing will remove all invalid variable nodes."

end ScriptCanvas

namespace PathUtil

/-- `PathUtil::AddSlash` of the file-IO tests, on a string given as its list of characters:
an empty path or one ending in a slash is returned as it is, a trailing backslash is
replaced by a slash, otherwise a slash is appended. -/
def AddSlash (path : List Char) : List Char :=
  if path.isEmpty || path[path.length - 1]? == some '/' then
    path
  else if path[path.length - 1]? == some '\\' then
    path.take (path.length - 1) ++ ['/']
  else
    path ++ ['/']

end PathUtil

namespace EMStudio

/-- What one execution of `GLWidget::paintGL` reads: whether the widget is hidden, which of
the pointers it tests are non-null, the state of the recorder and of the render options, the
view widget of this GL widget and the active view widget of the plugin on entry. -/
structure PaintInputs where
  isHidden : Bool
  graphicsManager : Bool
  mCamera : Bool
  renderUtil : Bool
  orthographicCamera : Bool
  isRecording : Bool
  isInPlayMode : Bool
  hasFocus : Bool
  showFPS : Bool
  mViewWidget : Nat
  activeViewWidget : Option Nat
  deriving DecidableEq, Repr, Inhabited

/-- The calls of `paintGL`: the calls on the painter, the store of the active view widget
of the plugin, and the calls on the graphics manager, on OpenGL and on the render helpers,
each of the latter kept by its name. -/
inductive PaintCall where
  | setRenderHint
  | stampRenderTimer
  | beginNativePainting
  | endNativePainting
  | assertActiveViewWidgetNull (holds : Bool)
  | setActiveViewWidget (widget : Option Nat)
  | graphics (name : String)
  | gl (name : String)
  | render (name : String)
  | renderText (text : String)
  | renderBorder (color : String)
  | renderFps
  deriving DecidableEq, Repr, Inhabited

/-- The calls of one execution and the active view widget of the plugin when it returns. -/
structure PaintResult where
  calls : List PaintCall
  activeViewWidget : Option Nat
  deriving DecidableEq, Repr, Inhabited

/-- The calls of `paintGL` between the store of the active view widget and the border: the
render settings, the scene, the manipulators, the axis and the node filter string.  The
render helpers are declared outside the sources and are taken not to return early and not to
touch the painter or the active view widget. -/
def sceneCalls (i : PaintInputs) : List PaintCall :=
  [.graphics "SetClearColor", .graphics "SetGradientSourceColor",
   .graphics "SetGradientTargetColor", .graphics "SetUseGradientBackground",
   .gl "glEnable(GL_DEPTH_TEST)", .gl "glEnable(GL_MULTISAMPLE)", .gl "glViewport",
   .render "SetDevicePixelRatio",
   .graphics "SetRimAngle", .graphics "SetRimIntensity", .graphics "SetRimWidth",
   .graphics "SetRimColor", .graphics "SetMainLightAngleA", .graphics "SetMainLightAngleB",
   .graphics "SetMainLightIntensity", .graphics "SetSpecularIntensity",
   .render "UpdateCamera", .graphics "SetCamera(mCamera)", .graphics "BeginRender",
   .render "RenderGrid", .render "RenderActorInstances", .render "RenderCustomPluginData",
   .gl "glDisable(GL_CULL_FACE)", .gl "glDisable(GL_DEPTH_TEST)", .gl "glEnable(GL_BLEND)",
   .gl "glBlendFunc", .render "RenderManipulators", .gl "glDisable(GL_BLEND)",
   .gl "glEnable(GL_DEPTH_TEST)", .graphics "EndRender",
   .gl "glPushAttrib(GL_ENABLE_BIT)", .gl "glDisable(GL_CULL_FACE)",
   .gl "glDisable(GL_DEPTH_TEST)",
   .graphics (if i.orthographicCamera then "SetCamera(mAxisFakeCamera)"
     else "SetCamera(mCamera)"),
   .render "RenderAxis", .graphics "SetCamera(mCamera)", .gl "glPopAttrib",
   .render "RenderNodeFilterString"]

/-- The border around the render view, with the mode text while recording or playing
back. -/
def borderCalls (i : PaintInputs) : List PaintCall :=
  if i.isRecording == false && i.isInPlayMode == false then
    if i.hasFocus then [.renderBorder "1.0f, 0.647f, 0.0f"]
    else [.renderBorder "0.0f, 0.0f, 0.0f"]
  else if i.isRecording then
    [.renderText "RECORDING MODE", .renderBorder "0.8f, 0.0f, 0.0f"]
  else if i.isInPlayMode then
    [.renderText "PLAYBACK MODE", .renderBorder "0.0f, 0.8f, 0.0f"]
  else []

/-- `GLWidget::paintGL`, with its three early returns. -/
def paintGL (i : PaintInputs) : PaintResult :=
  let c0 : List PaintCall := [.setRenderHint]
  if i.isHidden then
    { calls := c0, activeViewWidget := i.activeViewWidget }
  else
    let c1 := c0 ++ [.stampRenderTimer]
    if i.graphicsManager == false || i.mCamera == false then
      { calls := c1, activeViewWidget := i.activeViewWidget }
    else
      let c2 := c1 ++ [.beginNativePainting, .graphics "SetGBuffer"]
      if i.renderUtil == false then
        { calls := c2, activeViewWidget := i.activeViewWidget }
      else
        let c3 := c2 ++ [.assertActiveViewWidgetNull (i.activeViewWidget == none),
          .setActiveViewWidget (some i.mViewWidget)]
        let c4 := c3 ++ sceneCalls i ++ borderCalls i
        let c5 := c4 ++ [.setActiveViewWidget none, .endNativePainting]
        { calls := if i.showFPS then c5 ++ [.renderFps] else c5,
          activeViewWidget := none }

/-- A shown widget with a graphics manager and a camera whose graphics manager has no
render utility, and no active view widget on entry. -/
def paintInputsWithoutRenderUtil : PaintInputs :=
  { isHidden := false, graphicsManager := true, mCamera := true, renderUtil := false,
    orthographicCamera := false, isRecording := false, isInPlayMode := false,
    hasFocus := true, showFPS := false, mViewWidget := 1, activeViewWidget := none }

end EMStudio

namespace AZ.DX12

/-! ## Basic facts about the loops over the queues -/

theorem PerClass.map_id_of_some (a : PerClass (Option CommandQueue)) :
    PerClass.map (Option.map id) a = a := by
  cases a
  simp [PerClass.map]

theorem forEachQueue_ok (call : HardwareQueueClass → Call) (f : CommandQueue → CommandQueue)
    (m : Machine)
    (hg : m.ctx.m_commandQueues.graphics.isSome = true)
    (hc : m.ctx.m_commandQueues.compute.isSome = true)
    (hp : m.ctx.m_commandQueues.copy.isSome = true) :
    forEachQueue call f m =
      .ok { ctx := { m.ctx with
                m_commandQueues := PerClass.map (Option.map f) m.ctx.m_commandQueues },
            trace := m.trace ++ HardwareQueueClass.all.map call } := by
  obtain ⟨⟨⟨g, c, p⟩, ring, comp, idx⟩, tr⟩ := m
  cases g <;> cases c <;> cases p <;> simp at hg hc hp
  simp [forEachQueue, HardwareQueueClass.all, List.foldlM, onQueue, PerClass.get, PerClass.set,
    PerClass.map, bind, Except.bind, pure, Except.pure]

theorem forEachQueue_id_ok (call : HardwareQueueClass → Call) (m : Machine)
    (hg : m.ctx.m_commandQueues.graphics.isSome = true)
    (hc : m.ctx.m_commandQueues.compute.isSome = true)
    (hp : m.ctx.m_commandQueues.copy.isSome = true) :
    forEachQueue call id m =
      .ok { ctx := m.ctx, trace := m.trace ++ HardwareQueueClass.all.map call } := by
  rw [forEachQueue_ok call id m hg hc hp, PerClass.map_id_of_some]

theorem ringGet_ok (m : Machine) (i : Nat) (h : i < m.ctx.m_frameFences.length) :
    ringGet m i = .ok (m.ctx.m_frameFences.getD i default) := by
  simp [ringGet, List.getD_eq_getElem?_getD, List.getElem?_eq_getElem h]

theorem advance_eq (i R : Nat) (hi : i < R) (hR : R < uint32Size) :
    ((i + 1) % uint32Size) % (R % uint32Size) = (i + 1) % R := by
  have h1 : i + 1 < uint32Size := by omega
  rw [Nat.mod_eq_of_lt h1, Nat.mod_eq_of_lt hR]

theorem End_ok (m : Machine) (h : Initialised m) : End m = .ok (endState m) := by
  obtain ⟨ctx, tr⟩ := m
  obtain ⟨hg, hc, hp, hpos, hsz, hidx⟩ := h
  simp only at hg hc hp hpos hsz hidx
  have hnext : (ctx.m_currentFrameIndex + 1) % ctx.m_frameFences.length
      < ctx.m_frameFences.length := Nat.mod_lt _ hpos
  have hmod : ctx.m_frameFences.length % uint32Size ≠ 0 := by
    rw [Nat.mod_eq_of_lt hsz]; omega
  have hq : ∀ (call : HardwareQueueClass → Call) (t : List Call) (c : Context),
      c.m_commandQueues = ctx.m_commandQueues →
      forEachQueue call id { ctx := c, trace := t } =
        .ok { ctx := c, trace := t ++ HardwareQueueClass.all.map call } := by
    intro call t c hcq
    exact forEachQueue_id_ok call { ctx := c, trace := t }
      (by simpa [hcq] using hg) (by simpa [hcq] using hc) (by simpa [hcq] using hp)
  unfold End
  rw [ringGet_ok _ _ hidx]
  simp only [QueueGpuSignals, CalibrateClocks, bind, Except.bind]
  rw [hq _ _ _ rfl]
  simp only []
  rw [hq _ _ _ rfl]
  simp only [hmod, if_false, advance_eq _ _ hidx hsz]
  rw [ringGet_ok _ _ hnext]
  simp only [Machine.emit, ringSet]
  rw [ringGet_ok _ _ (by simpa using hnext)]
  simp only []
  rw [hq]
  · simp [endState, endCalls, List.getD_eq_getElem?_getD, hnext]
  · rfl

theorem Begin_ok (m : Machine) (h : Initialised m) : Begin m = .ok (beginState m) := by
  obtain ⟨hg, hc, hp, -⟩ := h
  exact forEachQueue_ok _ _ m hg hc hp

theorem WaitForIdle_ok (m : Machine) (h : Initialised m) :
    WaitForIdle m =
      .ok { ctx := m.ctx, trace := m.trace ++ HardwareQueueClass.all.map Call.QueueWaitForIdle } := by
  obtain ⟨⟨⟨g, c, p⟩, ring, comp, idx⟩, tr⟩ := m
  obtain ⟨hg, hc, hp, -⟩ := h
  cases g <;> cases c <;> cases p <;> simp at hg hc hp
  simp [WaitForIdle, HardwareQueueClass.all, List.foldlM, onQueue, PerClass.get, PerClass.set,
    bind, Except.bind, pure, Except.pure]

theorem onQueue_id_ok (c : HardwareQueueClass) (call : Call) (m : Machine) (h : Initialised m) :
    onQueue c call id m = .ok { ctx := m.ctx, trace := m.trace ++ [call] } := by
  obtain ⟨⟨⟨g, k, p⟩, ring, comp, idx⟩, tr⟩ := m
  obtain ⟨hg, hc, hp, -⟩ := h
  cases g <;> cases k <;> cases p <;> simp at hg hc hp
  cases c <;> simp [onQueue, PerClass.get, PerClass.set]

theorem Initialised_of_ctx {m m1 : Machine} (h : Initialised m) (hc : m1.ctx = m.ctx) :
    Initialised m1 := by
  unfold Initialised at *
  rw [hc]
  exact h

theorem ExecuteWork_ok (forceFlushScopes : Bool) (c : HardwareQueueClass)
    (r : ExecuteWorkRequest) (m : Machine) (h : Initialised m) :
    ExecuteWork forceFlushScopes c r m = .ok (workState forceFlushScopes m [(c, r)]) := by
  unfold ExecuteWork
  rw [onQueue_id_ok c _ m h]
  cases forceFlushScopes
  · simp [bind, Except.bind, workState, workCalls]
  · have h1 : Initialised { ctx := m.ctx, trace := m.trace ++ [Call.QueueExecuteWork c r] } :=
      Initialised_of_ctx h rfl
    simp [bind, Except.bind, workState, workCalls, WaitForIdle_ok _ h1]

theorem Initialised_beginState {m : Machine} (h : Initialised m) : Initialised (beginState m) := by
  obtain ⟨⟨⟨g, k, p⟩, ring, comp, idx⟩, tr⟩ := m
  obtain ⟨hg, hc, hp, hr⟩ := h
  cases g <;> cases k <;> cases p <;> simp at hg hc hp
  exact ⟨rfl, rfl, rfl, hr⟩

theorem Initialised_endState {m : Machine} (h : Initialised m) : Initialised (endState m) := by
  obtain ⟨hg, hc, hp, hpos, hsz, hidx⟩ := h
  refine ⟨hg, hc, hp, ?_, ?_, ?_⟩
  · simpa [endState] using hpos
  · simpa [endState] using hsz
  · simpa [endState] using Nat.mod_lt _ hpos

theorem endState_length (m : Machine) :
    (endState m).ctx.m_frameFences.length = m.ctx.m_frameFences.length := by
  simp [endState]

theorem endState_index (m : Machine) :
    (endState m).ctx.m_currentFrameIndex
      = (m.ctx.m_currentFrameIndex + 1) % m.ctx.m_frameFences.length := rfl

theorem endState_trace (m : Machine) :
    (endState m).trace = m.trace ++ endCalls m.ctx.m_currentFrameIndex
      ((m.ctx.m_currentFrameIndex + 1) % m.ctx.m_frameFences.length) := rfl

theorem run_nil (ff : Bool) (m : Machine) : run ff m [] = .ok m := rfl

theorem run_cons (ff : Bool) (m : Machine) (op : Op) (ops : List Op) :
    run ff m (op :: ops) = (step ff m op >>= fun m1 => run ff m1 ops) := by
  simp [run, List.foldlM]

theorem run_append (ff : Bool) (m : Machine) (xs ys : List Op) :
    run ff m (xs ++ ys) = (run ff m xs >>= fun m1 => run ff m1 ys) := by
  simp [run, List.foldlM_append]

theorem run_work (ff : Bool) (work : List (HardwareQueueClass × ExecuteWorkRequest)) :
    ∀ m : Machine, Initialised m →
      run ff m (work.map (fun w => Op.ExecuteWork w.1 w.2)) = .ok (workState ff m work) := by
  induction work with
  | nil => intro m _; simp [run_nil, workState, workCalls]
  | cons w ws ih =>
    intro m h
    rw [List.map_cons, run_cons]
    simp only [step]
    rw [ExecuteWork_ok ff w.1 w.2 m h]
    have h1 : Initialised (workState ff m [(w.1, w.2)]) := Initialised_of_ctx h rfl
    simp only [bind, Except.bind]
    rw [ih _ h1]
    simp [workState, workCalls]

theorem run_single (ff : Bool) (m : Machine) (op : Op) : run ff m [op] = step ff m op := by
  rw [run_cons]
  cases step ff m op <;> rfl

theorem run_frame (ff : Bool) (m : Machine) (h : Initialised m)
    (work : List (HardwareQueueClass × ExecuteWorkRequest)) :
    run ff m (frameOps work) = .ok (frameState ff m work) := by
  unfold frameOps
  rw [run_append, run_append, run_single]
  simp only [run_single, step]
  rw [Begin_ok m h]
  simp only [bind, Except.bind]
  rw [run_work ff work _ (Initialised_beginState h)]
  simp only []
  exact End_ok _ (Initialised_of_ctx (Initialised_beginState h) rfl)

theorem resize_length (xs : List FenceSet) (n : Nat) : (resize xs n).length = n := by
  simp [resize]
  omega

theorem map_const_eq_replicate (xs : List FenceSet) (v : FenceSet) :
    xs.map (fun _ => v) = List.replicate xs.length v := by
  induction xs with
  | nil => rfl
  | cons x xs ih => simp [List.replicate_succ, ih]

theorem Init_ok (FrameCountMax : Nat) (m : Machine) :
    Init FrameCountMax m = .ok (initState FrameCountMax m) := by
  obtain ⟨⟨⟨g, c, p⟩, ring, comp, idx⟩, tr⟩ := m
  simp [Init, initState, initCalls, initQueue, initQueueOf, CalibrateClocks, forEachQueue,
    HardwareQueueClass.all, List.foldlM, onQueue, PerClass.get, PerClass.set, Machine.emit,
    bind, Except.bind, pure, Except.pure, CommandQueue.Create, CommandQueue.SetName,
    CommandQueue.Init, GpuQueueNames, GpuQueueIds, HardwareQueueClass.toIdx,
    map_const_eq_replicate, resize_length]

theorem Initialised_initState (FrameCountMax : Nat) (m : Machine)
    (h2 : 2 ≤ FrameCountMax) (hu : FrameCountMax ≤ uint32Size) :
    Initialised (initState FrameCountMax m) := by
  refine ⟨rfl, rfl, rfl, ?_, ?_, ?_⟩ <;> simp [initState] <;> omega

/-! ## Runs of operations and of frames -/

theorem step_ok (ff : Bool) (m : Machine) (h : Initialised m) (op : Op) :
    step ff m op = .ok (opState ff m op) := by
  cases op with
  | Begin => exact Begin_ok m h
  | ExecuteWork c r => exact ExecuteWork_ok ff c r m h
  | IncrementFence c => rfl
  | End => exact End_ok m h

theorem Initialised_opState (ff : Bool) {m : Machine} (h : Initialised m) (op : Op) :
    Initialised (opState ff m op) := by
  cases op with
  | Begin => exact Initialised_beginState h
  | ExecuteWork c r => exact Initialised_of_ctx h rfl
  | IncrementFence c => exact h
  | End => exact Initialised_endState h

theorem opState_length (ff : Bool) (m : Machine) (op : Op) :
    (opState ff m op).ctx.m_frameFences.length = m.ctx.m_frameFences.length := by
  cases op <;> simp [opState, beginState, workState, incrementState, endState]

theorem run_ok (ff : Bool) (ops : List Op) :
    ∀ m : Machine, Initialised m → run ff m ops = .ok (ops.foldl (opState ff) m) := by
  induction ops with
  | nil => intro m _; rfl
  | cons op ops ih =>
    intro m h
    rw [run_cons, step_ok ff m h op]
    exact ih _ (Initialised_opState ff h op)

theorem Initialised_run (ff : Bool) (ops : List Op) :
    ∀ m : Machine, Initialised m →
      Initialised (ops.foldl (opState ff) m) ∧
      (ops.foldl (opState ff) m).ctx.m_frameFences.length = m.ctx.m_frameFences.length := by
  induction ops with
  | nil => intro m h; exact ⟨h, rfl⟩
  | cons op ops ih =>
    intro m h
    have := ih _ (Initialised_opState ff h op)
    exact ⟨this.1, by rw [List.foldl_cons, this.2, opState_length]⟩

theorem Initialised_frameState (ff : Bool) {m : Machine} (h : Initialised m)
    (work : List (HardwareQueueClass × ExecuteWorkRequest)) :
    Initialised (frameState ff m work) :=
  Initialised_endState (Initialised_of_ctx (Initialised_beginState h) rfl)

theorem frameState_length (ff : Bool) (m : Machine)
    (work : List (HardwareQueueClass × ExecuteWorkRequest)) :
    (frameState ff m work).ctx.m_frameFences.length = m.ctx.m_frameFences.length := by
  simp [frameState, endState, workState, beginState]

theorem frameState_index (ff : Bool) (m : Machine)
    (work : List (HardwareQueueClass × ExecuteWorkRequest)) :
    (frameState ff m work).ctx.m_currentFrameIndex
      = (m.ctx.m_currentFrameIndex + 1) % m.ctx.m_frameFences.length := rfl

theorem frameState_trace (ff : Bool) (m : Machine)
    (work : List (HardwareQueueClass × ExecuteWorkRequest)) :
    (frameState ff m work).trace
      = m.trace ++ (HardwareQueueClass.all.map Call.ClearTimers ++ workCalls ff work
          ++ endCalls m.ctx.m_currentFrameIndex
              ((m.ctx.m_currentFrameIndex + 1) % m.ctx.m_frameFences.length)) := by
  simp [frameState, endState, workState, beginState]

theorem runFrames_ok (ff : Bool) (frames : List (List (HardwareQueueClass × ExecuteWorkRequest))) :
    ∀ m : Machine, Initialised m → runFrames ff m frames = .ok (framesState ff m frames) := by
  induction frames with
  | nil => intro m _; rfl
  | cons f fs ih =>
    intro m h
    have h1 := ih _ (Initialised_frameState ff h f)
    simp only [runFrames, List.foldlM, framesState, List.foldl_cons] at h1 ⊢
    rw [run_frame ff m h f]
    exact h1

theorem framesState_facts (ff : Bool)
    (frames : List (List (HardwareQueueClass × ExecuteWorkRequest))) :
    ∀ m : Machine, Initialised m →
      Initialised (framesState ff m frames) ∧
      (framesState ff m frames).ctx.m_frameFences.length = m.ctx.m_frameFences.length ∧
      (framesState ff m frames).ctx.m_currentFrameIndex
        = (m.ctx.m_currentFrameIndex + frames.length) % m.ctx.m_frameFences.length ∧
      ∃ evs, (framesState ff m frames).trace = m.trace ++ evs := by
  induction frames with
  | nil =>
    intro m h
    refine ⟨h, rfl, ?_, [], by simp [framesState]⟩
    simp only [framesState, List.foldl_nil, List.length_nil, Nat.add_zero]
    exact (Nat.mod_eq_of_lt h.2.2.2.2.2).symm
  | cons f fs ih =>
    intro m h
    obtain ⟨hi, hl, hx, evs, ht⟩ := ih _ (Initialised_frameState ff h f)
    simp only [framesState, List.foldl_cons] at hi hl hx ht ⊢
    refine ⟨hi, ?_, ?_, ?_⟩
    · rw [hl, frameState_length]
    · rw [hx, frameState_length, frameState_index, List.length_cons, Nat.mod_add_mod]
      congr 1
      omega
    · rw [ht, frameState_trace]
      exact ⟨_, List.append_assoc _ _ _⟩

theorem framesState_append (ff : Bool) (m : Machine)
    (xs ys : List (List (HardwareQueueClass × ExecuteWorkRequest))) :
    framesState ff m (xs ++ ys) = framesState ff (framesState ff m xs) ys := by
  simp [framesState, List.foldl_append]

theorem take_split {α : Type} (xs : List α) (k n : Nat) (h : k ≤ n) :
    xs.take n = xs.take k ++ (xs.take n).drop k := by
  have h1 : (xs.take n).take k = xs.take k := by
    rw [List.take_take, Nat.min_eq_left h]
  rw [← h1, List.take_append_drop]

theorem UpdateCpuTimingStatistics_ok (stats : CpuTimingStatistics) (m : Machine)
    (h : Initialised m) :
    ∃ g c p, m.ctx.m_commandQueues = { graphics := some g, compute := some c, copy := some p } ∧
      UpdateCpuTimingStatistics stats m =
        .ok ({ m_queueStatistics :=
                [{ m_queueName := g.name, m_executeDuration := g.lastExecuteDuration },
                 { m_queueName := c.name, m_executeDuration := c.lastExecuteDuration },
                 { m_queueName := p.name, m_executeDuration := p.lastExecuteDuration }],
               m_presentDuration :=
                 wrapSysTime (wrapSysTime (wrapSysTime (0 + g.lastPresentDuration)
                   + c.lastPresentDuration) + p.lastPresentDuration) },
             m) := by
  obtain ⟨⟨⟨g, c, p⟩, ring, comp, idx⟩, tr⟩ := m
  obtain ⟨hg, hc, hp, -⟩ := h
  cases g <;> cases c <;> cases p <;> simp at hg hc hp
  refine ⟨_, _, _, rfl, ?_⟩
  simp [UpdateCpuTimingStatistics, HardwareQueueClass.all, List.foldlM, GetCommandQueue,
    PerClass.get, CpuTimingStatistics.Reset, bind, Except.bind, pure, Except.pure]

theorem framesState_take_succ (ff : Bool) (m : Machine)
    (frames : List (List (HardwareQueueClass × ExecuteWorkRequest))) (n : Nat)
    (hn : n < frames.length) :
    framesState ff m (frames.take (n + 1))
      = frameState ff (framesState ff m (frames.take n)) (frames.getD n []) := by
  rw [List.take_succ, framesState_append]
  simp [framesState, List.getD_eq_getElem?_getD, List.getElem?_eq_getElem hn]

theorem framesState_take_index (ff : Bool) (m : Machine) (h : Initialised m)
    (frames : List (List (HardwareQueueClass × ExecuteWorkRequest))) (n : Nat)
    (hn : n ≤ frames.length) :
    (framesState ff m (frames.take n)).ctx.m_currentFrameIndex
      = (m.ctx.m_currentFrameIndex + n) % m.ctx.m_frameFences.length := by
  have := (framesState_facts ff (frames.take n) m h).2.2.1
  rw [this, List.length_take, Nat.min_eq_left hn]

theorem framesState_take_prefix (ff : Bool) (m : Machine) (h : Initialised m)
    (frames : List (List (HardwareQueueClass × ExecuteWorkRequest))) (k n : Nat)
    (hkn : k ≤ n) :
    ∃ evs, (framesState ff m (frames.take n)).trace
      = (framesState ff m (frames.take k)).trace ++ evs := by
  rw [take_split frames k n hkn, framesState_append]
  exact (framesState_facts ff _ _ (framesState_facts ff _ m h).1).2.2.2

theorem callsOfFrame_ok (ff : Bool) (m : Machine) (h : Initialised m)
    (frames : List (List (HardwareQueueClass × ExecuteWorkRequest))) (n : Nat)
    (hn : n < frames.length) :
    callsOfFrame ff m frames n =
      .ok (HardwareQueueClass.all.map Call.ClearTimers ++ workCalls ff (frames.getD n [])
        ++ endCalls ((m.ctx.m_currentFrameIndex + n) % m.ctx.m_frameFences.length)
            (((m.ctx.m_currentFrameIndex + n) % m.ctx.m_frameFences.length + 1)
              % m.ctx.m_frameFences.length)) := by
  unfold callsOfFrame
  rw [runFrames_ok ff _ m h, runFrames_ok ff _ m h]
  simp only [bind, Except.bind, pure, Except.pure]
  rw [framesState_take_succ ff m frames n hn, frameState_trace, List.drop_left,
    framesState_take_index ff m h frames n (Nat.le_of_lt hn),
    (framesState_facts ff (frames.take n) m h).2.1]

theorem callsOfEnd_ok (m : Machine) (h : Initialised m) :
    callsOfEnd m = .ok (endCalls m.ctx.m_currentFrameIndex
      ((m.ctx.m_currentFrameIndex + 1) % m.ctx.m_frameFences.length)) := by
  unfold callsOfEnd
  rw [End_ok m h]
  simp only [bind, Except.bind, pure, Except.pure]
  rw [endState_trace, List.drop_left]

/-! ## The frame index -/

/-- C2: on an initialised context with ring size R and current index i, End succeeds and
leaves the current frame index at (i + 1) mod R, while Begin, ExecuteWork (with or without
forced flushing), IncrementFence, WaitForIdle and UpdateCpuTimingStatistics succeed and leave
the index at i. -/
theorem End_advances_index_others_keep_it (ff : Bool) (m : Machine) (h : Initialised m)
    (c : HardwareQueueClass) (r : ExecuteWorkRequest) (stats : CpuTimingStatistics) :
    (∃ m1, End m = .ok m1 ∧
      m1.ctx.m_currentFrameIndex
        = (m.ctx.m_currentFrameIndex + 1) % m.ctx.m_frameFences.length) ∧
    (∃ m1, Begin m = .ok m1 ∧ m1.ctx.m_currentFrameIndex = m.ctx.m_currentFrameIndex) ∧
    (∃ m1, ExecuteWork ff c r m = .ok m1 ∧
      m1.ctx.m_currentFrameIndex = m.ctx.m_currentFrameIndex) ∧
    (∃ v m1, IncrementFence c m = .ok (v, m1) ∧
      m1.ctx.m_currentFrameIndex = m.ctx.m_currentFrameIndex) ∧
    (∃ m1, WaitForIdle m = .ok m1 ∧ m1.ctx.m_currentFrameIndex = m.ctx.m_currentFrameIndex) ∧
    (∃ s m1, UpdateCpuTimingStatistics stats m = .ok (s, m1) ∧
      m1.ctx.m_currentFrameIndex = m.ctx.m_currentFrameIndex) := by
  refine ⟨⟨_, End_ok m h, rfl⟩, ⟨_, Begin_ok m h, rfl⟩, ⟨_, ExecuteWork_ok ff c r m h, rfl⟩,
    ⟨_, _, rfl, rfl⟩, ⟨_, WaitForIdle_ok m h, rfl⟩, ?_⟩
  obtain ⟨g, k, p, -, hu⟩ := UpdateCpuTimingStatistics_ok stats m h
  exact ⟨_, _, hu, rfl⟩

/-- Witness for C2: the context left by Init with three frames in flight is initialised, and
its first End moves the index from 0 to 1. -/
theorem End_advances_index_others_keep_it_witness :
    Initialised (initState 3 default) ∧
    ∃ m1, End (initState 3 default) = .ok m1 ∧ m1.ctx.m_currentFrameIndex = 1 :=
  ⟨by decide,
   (End_advances_index_others_keep_it false (initState 3 default) (by decide)
      HardwareQueueClass.Compute 7 default).1⟩

/-! ## The calls of End -/

/-- C5: on an initialised context with current index i, the GPU signals that End queues are
exactly three, in class order: for each class c one signal on the queue of class c for the
fence of class c of the frame fence set in ring slot i.  No signal names another slot,
another queue or the compiled fence set. -/
theorem End_signals_current_slot_once_per_class (m : Machine) (h : Initialised m) :
    ∃ calls, callsOfEnd m = .ok calls ∧
      gpuSignals calls =
        [Call.QueueGpuSignal .Graphics (.frame m.ctx.m_currentFrameIndex) .Graphics,
         Call.QueueGpuSignal .Compute (.frame m.ctx.m_currentFrameIndex) .Compute,
         Call.QueueGpuSignal .Copy (.frame m.ctx.m_currentFrameIndex) .Copy] := by
  refine ⟨_, callsOfEnd_ok m h, ?_⟩
  simp [endCalls, gpuSignals, HardwareQueueClass.all, List.filter]

/-- Witness for C5: the first End after Init with three frames in flight signals the three
fences of ring slot 0. -/
theorem End_signals_current_slot_once_per_class_witness :
    ∃ calls, callsOfEnd (initState 3 default) = .ok calls ∧
      gpuSignals calls =
        [Call.QueueGpuSignal .Graphics (.frame 0) .Graphics,
         Call.QueueGpuSignal .Compute (.frame 0) .Compute,
         Call.QueueGpuSignal .Copy (.frame 0) .Copy] :=
  End_signals_current_slot_once_per_class (initState 3 default) (by decide)

/-- C6: on an initialised context with current index i and ring size R, End makes exactly
these calls in this order: QueueGpuSignal on the Graphics, Compute and Copy queues,
FlushCommands on the three queues, the store of (i + 1) mod R to the frame index, the Wait on
the fence set of the new slot, its Reset, and CalibrateClock on the three queues; so every
queue is flushed once and calibrated once. -/
theorem End_call_order (m : Machine) (h : Initialised m) :
    ∃ calls, callsOfEnd m = .ok calls ∧
      calls =
        [Call.QueueGpuSignal .Graphics (.frame m.ctx.m_currentFrameIndex) .Graphics,
         Call.QueueGpuSignal .Compute (.frame m.ctx.m_currentFrameIndex) .Compute,
         Call.QueueGpuSignal .Copy (.frame m.ctx.m_currentFrameIndex) .Copy,
         Call.FlushCommands .Graphics,
         Call.FlushCommands .Compute,
         Call.FlushCommands .Copy,
         Call.StoreFrameIndex ((m.ctx.m_currentFrameIndex + 1) % m.ctx.m_frameFences.length),
         Call.FenceSetWait
           (.frame ((m.ctx.m_currentFrameIndex + 1) % m.ctx.m_frameFences.length)),
         Call.FenceSetReset
           (.frame ((m.ctx.m_currentFrameIndex + 1) % m.ctx.m_frameFences.length)),
         Call.CalibrateClock .Graphics,
         Call.CalibrateClock .Compute,
         Call.CalibrateClock .Copy] := by
  refine ⟨_, callsOfEnd_ok m h, ?_⟩
  simp [endCalls, HardwareQueueClass.all]

/-- Witness for C6: the calls of the first End after Init with three frames in flight. -/
theorem End_call_order_witness :
    ∃ calls, callsOfEnd (initState 3 default) = .ok calls ∧
      calls =
        [Call.QueueGpuSignal .Graphics (.frame 0) .Graphics,
         Call.QueueGpuSignal .Compute (.frame 0) .Compute,
         Call.QueueGpuSignal .Copy (.frame 0) .Copy,
         Call.FlushCommands .Graphics,
         Call.FlushCommands .Compute,
         Call.FlushCommands .Copy,
         Call.StoreFrameIndex 1,
         Call.FenceSetWait (.frame 1),
         Call.FenceSetReset (.frame 1),
         Call.CalibrateClock .Graphics,
         Call.CalibrateClock .Compute,
         Call.CalibrateClock .Copy] :=
  End_call_order (initState 3 default) (by decide)

/-! ## What Init establishes -/

/-- C7: for a frame count of at least one, Init succeeds on every context, whatever it held
before, and leaves a frame ring of exactly FrameCountMax - 1 fence sets and the current
frame index 0. -/
theorem Init_ring_size_and_index (FrameCountMax : Nat) (m : Machine)
    (h1 : 1 ≤ FrameCountMax) :
    ∃ m1, Init FrameCountMax m = .ok m1 ∧
      m1.ctx.m_frameFences.length + 1 = FrameCountMax ∧
      m1.ctx.m_frameFences.length = FrameCountMax - 1 ∧
      m1.ctx.m_currentFrameIndex = 0 := by
  refine ⟨_, Init_ok FrameCountMax m, ?_, ?_, rfl⟩
  · simp [initState]; omega
  · simp [initState]

/-- Witness for C7: Init with three frames in flight, run on a context that already holds a
ring of five fence sets and the index 4, leaves two fence sets and the index 0. -/
theorem Init_ring_size_and_index_witness :
    ∃ m1, Init 3 { ctx := { (default : Context) with
                      m_frameFences := List.replicate 5 default
                      m_currentFrameIndex := 4 },
                   trace := [] } = .ok m1 ∧
      m1.ctx.m_frameFences.length + 1 = 3 ∧
      m1.ctx.m_frameFences.length = 3 - 1 ∧
      m1.ctx.m_currentFrameIndex = 0 :=
  Init_ring_size_and_index 3 _ (by decide)

theorem fenceSetInits_initCalls (FrameCountMax : Nat) :
    fenceSetInits (initCalls FrameCountMax) =
      (List.range (FrameCountMax - 1)).map (fun k => Call.FenceSetInit (.frame k) .Signaled)
        ++ [Call.FenceSetInit .compiled .Reset] := by
  have hmap : ∀ l : List Nat,
      fenceSetInits (l.map (fun k => Call.FenceSetInit (.frame k) .Signaled))
        = l.map (fun k => Call.FenceSetInit (.frame k) .Signaled) := by
    intro l
    induction l with
    | nil => rfl
    | cons x xs ih =>
      simp only [fenceSetInits] at ih
      simp [fenceSetInits, List.filter_cons, ih]
  unfold initCalls
  simp only [fenceSetInits, List.filter_append] at hmap ⊢
  rw [hmap]
  simp [List.filter_cons]

/-- C10: Init succeeds on every context; the fence-set initialisations it performs are one
per ring slot with initial state Signaled followed by the one of the compiled fence set with
initial state Reset; afterwards every fence of every fence set of the frame ring is in
state Signaled, so that a Wait on such a fence set changes nothing, and every fence of the
compiled fence set is in state Reset. -/
theorem Init_fence_states (FrameCountMax : Nat) (m : Machine) :
    ∃ m1, Init FrameCountMax m = .ok m1 ∧
      fenceSetInits (m1.trace.drop m.trace.length) =
        (List.range (FrameCountMax - 1)).map (fun k => Call.FenceSetInit (.frame k) .Signaled)
          ++ [Call.FenceSetInit .compiled .Reset] ∧
      (∀ fs, fs ∈ m1.ctx.m_frameFences →
        (∀ c, (fs.GetFence c).state = FenceState.Signaled) ∧ fs.Wait = fs) ∧
      (∀ c, ((GetCompiledFences m1).GetFence c).state = FenceState.Reset) := by
  refine ⟨_, Init_ok FrameCountMax m, ?_, ?_, ?_⟩
  · simp only [initState, List.drop_left]
    exact fenceSetInits_initCalls FrameCountMax
  · intro fs hfs
    have hfs1 : fs = FenceSet.Init .Signaled := by
      simp only [initState] at hfs
      exact List.eq_of_mem_replicate hfs
    subst hfs1
    refine ⟨fun c => by cases c <;> rfl, rfl⟩
  · intro c
    cases c <;> rfl

/-! ## The index stays inside the ring -/

theorem ends_index (n : Nat) :
    ∀ m : Machine, Initialised m →
      ((List.replicate n Op.End).foldl (opState false) m).ctx.m_currentFrameIndex
        = (m.ctx.m_currentFrameIndex + n) % m.ctx.m_frameFences.length := by
  induction n with
  | zero => intro m h; exact (Nat.mod_eq_of_lt h.2.2.2.2.2).symm
  | succ n ih =>
    intro m h
    rw [List.replicate_succ, List.foldl_cons, ih _ (Initialised_opState false h Op.End),
      opState_length]
    simp only [opState, endState_index, Nat.mod_add_mod]
    congr 1
    omega

/-- C8: for a frame count of at least two (that fits `uint32_t`), every sequence of Begin,
ExecuteWork, IncrementFence and End calls made after Init runs without fault and ends in a
state whose current frame index is below the ring size; there the modulus of End is not
zero, the index End advances to is inside the ring too, and a further End succeeds. -/
theorem index_stays_in_ring (FrameCountMax : Nat) (h2 : 2 ≤ FrameCountMax)
    (hu : FrameCountMax < uint32Size) (ff : Bool) (m0 : Machine) (ops : List Op) :
    ∃ mi m, Init FrameCountMax m0 = .ok mi ∧ run ff mi ops = .ok m ∧
      m.ctx.m_frameFences.length = FrameCountMax - 1 ∧
      m.ctx.m_currentFrameIndex < m.ctx.m_frameFences.length ∧
      m.ctx.m_frameFences.length % uint32Size ≠ 0 ∧
      ((m.ctx.m_currentFrameIndex + 1) % uint32Size) % (m.ctx.m_frameFences.length % uint32Size)
        < m.ctx.m_frameFences.length ∧
      ∃ m1, End m = .ok m1 := by
  have hi := Initialised_initState FrameCountMax m0 h2 (Nat.le_of_lt hu)
  obtain ⟨hr, hl⟩ := Initialised_run ff ops _ hi
  refine ⟨_, _, Init_ok FrameCountMax m0, run_ok ff ops _ hi, ?_, hr.2.2.2.2.2, ?_, ?_,
    _, End_ok _ hr⟩
  · rw [hl]; simp [initState]
  · rw [Nat.mod_eq_of_lt hr.2.2.2.2.1]
    exact Nat.pos_iff_ne_zero.mp hr.2.2.2.1
  · rw [advance_eq _ _ hr.2.2.2.2.2 hr.2.2.2.2.1]
    exact Nat.mod_lt _ hr.2.2.2.1

/-- Witness for C8: three frames in flight and a run that mixes the four operations. -/
theorem index_stays_in_ring_witness :
    ∃ mi m, Init 3 default = .ok mi ∧
      run true mi [Op.Begin, Op.ExecuteWork .Graphics 1, Op.End, Op.IncrementFence .Compute,
        Op.End, Op.End] = .ok m ∧
      m.ctx.m_frameFences.length = 3 - 1 ∧
      m.ctx.m_currentFrameIndex < m.ctx.m_frameFences.length ∧
      m.ctx.m_frameFences.length % uint32Size ≠ 0 ∧
      ((m.ctx.m_currentFrameIndex + 1) % uint32Size) % (m.ctx.m_frameFences.length % uint32Size)
        < m.ctx.m_frameFences.length ∧
      ∃ m1, End m = .ok m1 :=
  index_stays_in_ring 3 (by decide) (by decide) true default _

/-! ## Reuse of the ring slots -/

/-- C9: in a run of End calls made after Init with ring size R = FrameCountMax - 1, the
index after n Ends is n mod R, and that is the slot whose three fences the next End signals;
the End made R Ends later signals the same slot, and an End made j Ends later with
0 < j < R signals a different slot. -/
theorem ring_slot_reuse (FrameCountMax : Nat) (h2 : 2 ≤ FrameCountMax)
    (hu : FrameCountMax < uint32Size) (m0 : Machine) (n j : Nat) :
    ∃ mi a b ca cb, Init FrameCountMax m0 = .ok mi ∧
      runEnds mi n = .ok a ∧ runEnds mi (n + j) = .ok b ∧
      a.ctx.m_currentFrameIndex = n % (FrameCountMax - 1) ∧
      b.ctx.m_currentFrameIndex = (n + j) % (FrameCountMax - 1) ∧
      callsOfEnd a = .ok ca ∧ callsOfEnd b = .ok cb ∧
      gpuSignalSets ca = List.replicate 3 (FenceSetRef.frame a.ctx.m_currentFrameIndex) ∧
      gpuSignalSets cb = List.replicate 3 (FenceSetRef.frame b.ctx.m_currentFrameIndex) ∧
      (j = FrameCountMax - 1 → gpuSignalSets cb = gpuSignalSets ca) ∧
      (0 < j → j < FrameCountMax - 1 → ∀ s, s ∈ gpuSignalSets cb → s ∉ gpuSignalSets ca) := by
  have hi := Initialised_initState FrameCountMax m0 h2 (Nat.le_of_lt hu)
  have hlen : (initState FrameCountMax m0).ctx.m_frameFences.length = FrameCountMax - 1 := by
    simp [initState]
  have hidx : ∀ k, ((List.replicate k Op.End).foldl (opState false)
      (initState FrameCountMax m0)).ctx.m_currentFrameIndex = k % (FrameCountMax - 1) := by
    intro k
    rw [ends_index k _ hi, hlen]
    simp [initState]
  have hsig : ∀ i next, gpuSignalSets (endCalls i next) = List.replicate 3 (FenceSetRef.frame i) := by
    intro i next
    simp [gpuSignalSets, endCalls, HardwareQueueClass.all, List.filterMap, List.replicate]
  have ha := (Initialised_run false (List.replicate n Op.End) _ hi).1
  have hb := (Initialised_run false (List.replicate (n + j) Op.End) _ hi).1
  refine ⟨_, _, _, _, _, Init_ok FrameCountMax m0, run_ok false _ _ hi, run_ok false _ _ hi,
    hidx n, hidx (n + j), callsOfEnd_ok _ ha, callsOfEnd_ok _ hb, hsig _ _, hsig _ _, ?_, ?_⟩
  · intro hj
    rw [hsig, hsig, hidx, hidx, hj, Nat.add_mod_right]
  · intro hj0 hjR s hs hs1
    rw [hsig, hidx] at hs hs1
    have e1 := List.eq_of_mem_replicate hs
    have e2 := List.eq_of_mem_replicate hs1
    rw [e1] at e2
    have e3 : (n + j) % (FrameCountMax - 1) = n % (FrameCountMax - 1) := by
      injection e2
    have hdvd : (FrameCountMax - 1) ∣ j := by
      have := (Nat.modEq_iff_dvd' (Nat.le_add_right n j)).mp e3.symm
      simpa using this
    have := Nat.le_of_dvd hj0 hdvd
    omega

/-- Witness for C9: ring size 2, the Ends made after 3 and after 3 + 1 earlier Ends signal
different slots. -/
theorem ring_slot_reuse_witness :
    ∃ mi a b ca cb, Init 3 default = .ok mi ∧
      runEnds mi 3 = .ok a ∧ runEnds mi (3 + 1) = .ok b ∧
      a.ctx.m_currentFrameIndex = 3 % (3 - 1) ∧
      b.ctx.m_currentFrameIndex = (3 + 1) % (3 - 1) ∧
      callsOfEnd a = .ok ca ∧ callsOfEnd b = .ok cb ∧
      gpuSignalSets ca = List.replicate 3 (FenceSetRef.frame a.ctx.m_currentFrameIndex) ∧
      gpuSignalSets cb = List.replicate 3 (FenceSetRef.frame b.ctx.m_currentFrameIndex) ∧
      (1 = 3 - 1 → gpuSignalSets cb = gpuSignalSets ca) ∧
      (0 < 1 → 1 < 3 - 1 → ∀ s, s ∈ gpuSignalSets cb → s ∉ gpuSignalSets ca) :=
  ring_slot_reuse 3 (by decide) (by decide) default 3 1

/-! ## The pacing bound -/

theorem wait_frame_exists (R k : Nat) (hR : 0 < R) :
    ∃ j, k + 1 ≤ j ∧ j + 1 ≤ k + (R + 1) ∧ (j % R + 1) % R = k % R := by
  by_cases h1 : R = 1
  · subst h1
    exact ⟨k + 1, Nat.le_refl _, Nat.le_refl _, by simp [Nat.mod_one]⟩
  · refine ⟨k + R - 1, by omega, by omega, ?_⟩
    rw [Nat.mod_add_mod]
    have : k + R - 1 + 1 = k + R := by omega
    rw [this, Nat.add_mod_right]

theorem endCalls_split (i next : Nat) (c : HardwareQueueClass) :
    ∃ pre post, endCalls i next = pre ++ [Call.QueueGpuSignal c (.frame i) c] ++ post ∧
      gpuSignalSets (endCalls i next) = List.replicate 3 (FenceSetRef.frame i) := by
  cases c
  · exact ⟨[], _, rfl, rfl⟩
  · exact ⟨[Call.QueueGpuSignal .Graphics (.frame i) .Graphics], _, rfl, rfl⟩
  · exact ⟨[Call.QueueGpuSignal .Graphics (.frame i) .Graphics,
      Call.QueueGpuSignal .Compute (.frame i) .Compute], _, rfl, rfl⟩

theorem endCalls_wait (i next : Nat) :
    ∃ pre post, endCalls i next = pre ++ [Call.FenceSetWait (.frame next)] ++ post :=
  ⟨HardwareQueueClass.all.map (fun c => Call.QueueGpuSignal c (.frame i) c)
      ++ HardwareQueueClass.all.map Call.FlushCommands ++ [Call.StoreFrameIndex next],
    [Call.FenceSetReset (.frame next)] ++ HardwareQueueClass.all.map Call.CalibrateClock,
    by simp [endCalls]⟩

theorem gpuSignalSets_append (xs ys : List Call) :
    gpuSignalSets (xs ++ ys) = gpuSignalSets xs ++ gpuSignalSets ys := by
  simp [gpuSignalSets, List.filterMap_append]

theorem gpuSignalSets_clearTimers :
    gpuSignalSets (HardwareQueueClass.all.map Call.ClearTimers) = [] := rfl

theorem gpuSignalSets_workCalls (ff : Bool)
    (work : List (HardwareQueueClass × ExecuteWorkRequest)) :
    gpuSignalSets (workCalls ff work) = [] := by
  induction work with
  | nil => rfl
  | cons w ws ih =>
    cases ff
    · simpa [workCalls, gpuSignalSets] using ih
    · simpa [workCalls, gpuSignalSets, HardwareQueueClass.all] using ih

/-- C1: for every frame count F of at least two (ring size R = F - 1 of at least one) and
every run of frames (Begin, any ExecuteWork calls, End) made after Init, the run does not
fault, and for every frame k (counted from 0) and every queue class c: the End of frame k
queues its GPU signals on the fence set of the ring slot that is current when frame k starts,
and the trace at the moment frame k + F begins holds, after the signal that the End of
frame k queued for class c, a Wait on the fence set of that same slot.  The Wait for frame k
has been performed before frame k + F begins. -/
theorem pacing_bound (FrameCountMax : Nat) (h2 : 2 ≤ FrameCountMax)
    (hu : FrameCountMax < uint32Size) (ff : Bool) (m0 : Machine)
    (frames : List (List (HardwareQueueClass × ExecuteWorkRequest))) (k : Nat)
    (hk : k + FrameCountMax ≤ frames.length) (c : HardwareQueueClass) :
    ∃ mi a b z pre mid post,
      Init FrameCountMax m0 = .ok mi ∧
      runFrames ff mi (frames.take k) = .ok a ∧
      runFrames ff mi (frames.take (k + 1)) = .ok b ∧
      runFrames ff mi (frames.take (k + FrameCountMax)) = .ok z ∧
      gpuSignalSets (b.trace.drop a.trace.length)
        = List.replicate 3 (FenceSetRef.frame a.ctx.m_currentFrameIndex) ∧
      z.trace = a.trace ++ pre
        ++ [Call.QueueGpuSignal c (.frame a.ctx.m_currentFrameIndex) c] ++ mid
        ++ [Call.FenceSetWait (.frame a.ctx.m_currentFrameIndex)] ++ post ∧
      (a.trace ++ pre).length < b.trace.length := by
  have hi := Initialised_initState FrameCountMax m0 h2 (Nat.le_of_lt hu)
  have hlen : (initState FrameCountMax m0).ctx.m_frameFences.length = FrameCountMax - 1 := by
    simp [initState]
  have hidx0 : (initState FrameCountMax m0).ctx.m_currentFrameIndex = 0 := rfl
  obtain ⟨j, hj1, hj2, hjm⟩ := wait_frame_exists (FrameCountMax - 1) k (by omega)
  have hF : FrameCountMax - 1 + 1 = FrameCountMax := by omega
  rw [hF] at hj2
  -- the states at the start of frames k, k + 1, j, j + 1 and k + F
  have hb := framesState_take_succ ff (initState FrameCountMax m0) frames k (by omega)
  have hy := framesState_take_succ ff (initState FrameCountMax m0) frames j (by omega)
  have hia := (framesState_facts ff (frames.take k) _ hi)
  have hiy := (framesState_facts ff (frames.take j) _ hi)
  have hak := framesState_take_index ff _ hi frames k (by omega)
  have hyj := framesState_take_index ff _ hi frames j (by omega)
  rw [hidx0, hlen, Nat.zero_add] at hak hyj
  obtain ⟨e2, he2⟩ := framesState_take_prefix ff _ hi frames (k + 1) j hj1
  obtain ⟨e3, he3⟩ := framesState_take_prefix ff _ hi frames (j + 1) (k + FrameCountMax) hj2
  have tb := frameState_trace ff (framesState ff (initState FrameCountMax m0) (frames.take k))
    (frames.getD k [])
  have ty := frameState_trace ff (framesState ff (initState FrameCountMax m0) (frames.take j))
    (frames.getD j [])
  rw [← hb] at tb
  rw [← hy] at ty
  rw [hia.2.1, hlen] at tb
  rw [hiy.2.1, hlen, hyj, hjm, ← hak] at ty
  obtain ⟨p1, q1, hs1, hsig⟩ := endCalls_split
    (framesState ff (initState FrameCountMax m0) (frames.take k)).ctx.m_currentFrameIndex
    (((framesState ff (initState FrameCountMax m0) (frames.take k)).ctx.m_currentFrameIndex + 1)
      % (FrameCountMax - 1)) c
  obtain ⟨p2, q2, hs2⟩ := endCalls_wait (j % (FrameCountMax - 1))
    (framesState ff (initState FrameCountMax m0) (frames.take k)).ctx.m_currentFrameIndex
  refine ⟨_, _, _, _,
    HardwareQueueClass.all.map Call.ClearTimers ++ workCalls ff (frames.getD k []) ++ p1,
    q1 ++ e2 ++ (HardwareQueueClass.all.map Call.ClearTimers ++ workCalls ff (frames.getD j [])
      ++ p2),
    q2 ++ e3,
    Init_ok FrameCountMax m0, runFrames_ok ff _ _ hi, runFrames_ok ff _ _ hi,
    runFrames_ok ff _ _ hi, ?_, ?_, ?_⟩
  · rw [tb, List.drop_left, gpuSignalSets_append, gpuSignalSets_append,
      gpuSignalSets_clearTimers, gpuSignalSets_workCalls, hsig]
    rfl
  · rw [he3, ty, he2, tb, hs1, hs2]
    simp only [List.append_assoc]
  · rw [tb, hs1]
    simp only [List.length_append, List.length_cons, List.length_nil]
    omega

/-- Witness for C1: three frames in flight, four frames, frame 0 and the Copy queue. -/
theorem pacing_bound_witness :
    ∃ mi a b z pre mid post,
      Init 3 default = .ok mi ∧
      runFrames false mi (List.take 0 [[(.Graphics, 1)], [], [(.Copy, 2), (.Compute, 3)], []])
        = .ok a ∧
      runFrames false mi
        (List.take (0 + 1) [[(.Graphics, 1)], [], [(.Copy, 2), (.Compute, 3)], []]) = .ok b ∧
      runFrames false mi
        (List.take (0 + 3) [[(.Graphics, 1)], [], [(.Copy, 2), (.Compute, 3)], []]) = .ok z ∧
      gpuSignalSets (b.trace.drop a.trace.length)
        = List.replicate 3 (FenceSetRef.frame a.ctx.m_currentFrameIndex) ∧
      z.trace = a.trace ++ pre
        ++ [Call.QueueGpuSignal .Copy (.frame a.ctx.m_currentFrameIndex) .Copy] ++ mid
        ++ [Call.FenceSetWait (.frame a.ctx.m_currentFrameIndex)] ++ post ∧
      (a.trace ++ pre).length < b.trace.length :=
  pacing_bound 3 (by decide) (by decide) false default
    [[(.Graphics, 1)], [], [(.Copy, 2), (.Compute, 3)], []] 0 (by decide) .Copy

/-! ## Which fence set End waits on -/

theorem waitResetCalls_frame_head (ff : Bool)
    (work : List (HardwareQueueClass × ExecuteWorkRequest)) (rest : List Call) :
    waitResetCalls (HardwareQueueClass.all.map Call.ClearTimers ++ workCalls ff work ++ rest)
      = waitResetCalls rest := by
  have hw : waitResetCalls (workCalls ff work) = [] := by
    induction work with
    | nil => rfl
    | cons w ws ih =>
      cases ff
      · simpa [workCalls, waitResetCalls] using ih
      · simpa [workCalls, waitResetCalls, HardwareQueueClass.all] using ih
  simp only [waitResetCalls, List.filter_append] at hw ⊢
  rw [hw]
  rfl

theorem waitResetCalls_endCalls (i next : Nat) :
    waitResetCalls (endCalls i next)
      = [Call.FenceSetWait (.frame next), Call.FenceSetReset (.frame next)] := rfl

theorem gpuSignalSets_frame (ff : Bool)
    (work : List (HardwareQueueClass × ExecuteWorkRequest)) (i next : Nat) :
    gpuSignalSets (HardwareQueueClass.all.map Call.ClearTimers ++ workCalls ff work
        ++ endCalls i next)
      = List.replicate 3 (FenceSetRef.frame i) := by
  rw [gpuSignalSets_append, gpuSignalSets_append, gpuSignalSets_clearTimers,
    gpuSignalSets_workCalls]
  rfl

/-- C3: on an initialised context with current index i and ring size R, End waits on exactly
one fence set, the one in ring slot (i + 1) mod R, then resets that same fence set and no
other; in the ring only that slot changes.  In a run of frames made after Init with ring
size R = FrameCountMax - 1, the fence set that the End of frame n (counted from 0) waits on
and resets is the one whose fences were signaled by the End of the frame R frames before
frame n + 1, the frame about to begin. -/
theorem End_waits_on_slot_used_ring_size_frames_ago (m : Machine) (h : Initialised m)
    (FrameCountMax : Nat) (h2 : 2 ≤ FrameCountMax) (hu : FrameCountMax < uint32Size)
    (ff : Bool) (m0 : Machine)
    (frames : List (List (HardwareQueueClass × ExecuteWorkRequest))) (n : Nat)
    (hn : n < frames.length) (hR : FrameCountMax - 1 ≤ n + 1) :
    (∃ m1 calls, End m = .ok m1 ∧ callsOfEnd m = .ok calls ∧
      waitResetCalls calls =
        [Call.FenceSetWait
           (.frame ((m.ctx.m_currentFrameIndex + 1) % m.ctx.m_frameFences.length)),
         Call.FenceSetReset
           (.frame ((m.ctx.m_currentFrameIndex + 1) % m.ctx.m_frameFences.length))] ∧
      m1.ctx.m_frameFences.length = m.ctx.m_frameFences.length ∧
      (∀ j, j ≠ (m.ctx.m_currentFrameIndex + 1) % m.ctx.m_frameFences.length →
        m1.ctx.m_frameFences[j]? = m.ctx.m_frameFences[j]?) ∧
      m1.ctx.m_compiledFences = m.ctx.m_compiledFences) ∧
    (∃ mi now old w, Init FrameCountMax m0 = .ok mi ∧
      callsOfFrame ff mi frames n = .ok now ∧
      callsOfFrame ff mi frames (n + 1 - (FrameCountMax - 1)) = .ok old ∧
      waitResetCalls now = [Call.FenceSetWait (.frame w), Call.FenceSetReset (.frame w)] ∧
      gpuSignalSets old = List.replicate 3 (FenceSetRef.frame w)) := by
  constructor
  · refine ⟨_, _, End_ok m h, callsOfEnd_ok m h, rfl, endState_length m, ?_, rfl⟩
    intro j hj
    simp only [endState]
    rw [List.getElem?_set_ne (Ne.symm hj)]
  · have hi := Initialised_initState FrameCountMax m0 h2 (Nat.le_of_lt hu)
    have hlen : (initState FrameCountMax m0).ctx.m_frameFences.length = FrameCountMax - 1 := by
      simp [initState]
    have hidx0 : (initState FrameCountMax m0).ctx.m_currentFrameIndex = 0 := rfl
    have hmod : (n % (FrameCountMax - 1) + 1) % (FrameCountMax - 1)
        = (n + 1 - (FrameCountMax - 1)) % (FrameCountMax - 1) := by
      rw [Nat.mod_add_mod]
      have : n + 1 = (n + 1 - (FrameCountMax - 1)) + (FrameCountMax - 1) := by omega
      conv_lhs => rw [this, Nat.add_mod_right]
    refine ⟨_, _, _, (n + 1 - (FrameCountMax - 1)) % (FrameCountMax - 1),
      Init_ok FrameCountMax m0, callsOfFrame_ok ff _ hi frames n hn,
      callsOfFrame_ok ff _ hi frames _ (by omega), ?_, ?_⟩
    · rw [waitResetCalls_frame_head, waitResetCalls_endCalls, hidx0, hlen, Nat.zero_add, hmod]
    · rw [gpuSignalSets_frame, hidx0, hlen, Nat.zero_add]

/-- Witness for C3: a context left by Init with three frames in flight, and frame 3 of a run
of four frames. -/
theorem End_waits_on_slot_used_ring_size_frames_ago_witness :
    ∃ mi now old w, Init 3 default = .ok mi ∧
      callsOfFrame true mi [[(.Graphics, 1)], [], [(.Copy, 2)], [(.Compute, 3)]] 3 = .ok now ∧
      callsOfFrame true mi [[(.Graphics, 1)], [], [(.Copy, 2)], [(.Compute, 3)]]
        (3 + 1 - (3 - 1)) = .ok old ∧
      waitResetCalls now = [Call.FenceSetWait (.frame w), Call.FenceSetReset (.frame w)] ∧
      gpuSignalSets old = List.replicate 3 (FenceSetRef.frame w) :=
  (End_waits_on_slot_used_ring_size_frames_ago (initState 3 default) (by decide)
    3 (by decide) (by decide) true default
    [[(.Graphics, 1)], [], [(.Copy, 2)], [(.Compute, 3)]] 3 (by decide) (by decide)).2

/-! ## Scenario A: three frames in flight, five frames -/

theorem fenceSetWaits_frame (ff : Bool)
    (work : List (HardwareQueueClass × ExecuteWorkRequest)) (i next : Nat) :
    fenceSetWaits (HardwareQueueClass.all.map Call.ClearTimers ++ workCalls ff work
        ++ endCalls i next)
      = [FenceSetRef.frame next] := by
  have hw : fenceSetWaits (workCalls ff work) = [] := by
    induction work with
    | nil => rfl
    | cons w ws ih =>
      cases ff
      · simpa [workCalls, fenceSetWaits] using ih
      · simpa [workCalls, fenceSetWaits, HardwareQueueClass.all] using ih
  simp only [fenceSetWaits, List.filterMap_append] at hw ⊢
  rw [hw]
  rfl

theorem gpuSignalSets_initCalls (FrameCountMax : Nat) :
    gpuSignalSets (initCalls FrameCountMax) = [] := by
  have hmap : ∀ l : List Nat,
      gpuSignalSets (l.map (fun k => Call.FenceSetInit (.frame k) .Signaled)) = [] := by
    intro l
    induction l with
    | nil => rfl
    | cons x xs ih =>
      simp only [gpuSignalSets] at ih
      simp [gpuSignalSets, ih]
  unfold initCalls
  rw [gpuSignalSets_append, gpuSignalSets_append, hmap]
  rfl

/-- Counterexample to C4: in Scenario A the End of frame 2 waits on the fence set of ring
slot 0, which the End of frame 1 has signaled; and the End of frame 3 waits on the fence set
of ring slot 1, which the End of frame 1 did not signal: it was signaled by the End of
frame 2. -/
theorem scenarioA_wait_is_not_two_frames_back :
    ∃ mi c1 c2 c3, Init 3 default = .ok mi ∧
      callsOfFrame false mi (scenarioAFrames 1 2 3 4 5) 0 = .ok c1 ∧
      callsOfFrame false mi (scenarioAFrames 1 2 3 4 5) 1 = .ok c2 ∧
      callsOfFrame false mi (scenarioAFrames 1 2 3 4 5) 2 = .ok c3 ∧
      fenceSetWaits c2 = [FenceSetRef.frame 0] ∧
      FenceSetRef.frame 0 ∈ gpuSignalSets c1 ∧
      fenceSetWaits c3 = [FenceSetRef.frame 1] ∧
      FenceSetRef.frame 1 ∉ gpuSignalSets c1 ∧
      FenceSetRef.frame 1 ∈ gpuSignalSets c2 := by
  have hi : Initialised (initState 3 default) := by decide
  refine ⟨_, _, _, _, Init_ok 3 default,
    callsOfFrame_ok false _ hi _ 0 (by decide),
    callsOfFrame_ok false _ hi _ 1 (by decide),
    callsOfFrame_ok false _ hi _ 2 (by decide), ?_, ?_, ?_, ?_, ?_⟩ <;> decide

/-- C4 as amended: in Scenario A (three frames in flight, ring size 2, five frames of Begin,
one Graphics ExecuteWork and End made after Init) nothing faults; the End of frame 1 waits
only on the fence set of slot 1, which no call has signaled since Init; the End of frames 1
and 2 waits only on a fence set that is still as Init left it, every fence in state
Signaled, so the Wait changes nothing; and for every frame n from 2 to 5 the fence set that
End waits on is the one signaled by the End of frame n - 1. -/
theorem scenarioA_waits (ff : Bool) (m0 : Machine) (r1 r2 r3 r4 r5 : ExecuteWorkRequest) :
    ∃ mi a1 c1 c2 c3 c4 c5, Init 3 m0 = .ok mi ∧
      runFrames ff mi ((scenarioAFrames r1 r2 r3 r4 r5).take 1) = .ok a1 ∧
      callsOfFrame ff mi (scenarioAFrames r1 r2 r3 r4 r5) 0 = .ok c1 ∧
      callsOfFrame ff mi (scenarioAFrames r1 r2 r3 r4 r5) 1 = .ok c2 ∧
      callsOfFrame ff mi (scenarioAFrames r1 r2 r3 r4 r5) 2 = .ok c3 ∧
      callsOfFrame ff mi (scenarioAFrames r1 r2 r3 r4 r5) 3 = .ok c4 ∧
      callsOfFrame ff mi (scenarioAFrames r1 r2 r3 r4 r5) 4 = .ok c5 ∧
      (fenceSetWaits c1 = [FenceSetRef.frame 1] ∧
        gpuSignalSets (mi.trace.drop m0.trace.length) = [] ∧
        mi.ctx.m_frameFences[1]? = some (FenceSet.Init .Signaled)) ∧
      (fenceSetWaits c2 = [FenceSetRef.frame 0] ∧
        a1.ctx.m_frameFences[0]? = some (FenceSet.Init .Signaled)) ∧
      (FenceSet.Init .Signaled).Wait = FenceSet.Init .Signaled ∧
      (∃ w, fenceSetWaits c2 = [w] ∧ gpuSignalSets c1 = List.replicate 3 w) ∧
      (∃ w, fenceSetWaits c3 = [w] ∧ gpuSignalSets c2 = List.replicate 3 w) ∧
      (∃ w, fenceSetWaits c4 = [w] ∧ gpuSignalSets c3 = List.replicate 3 w) ∧
      (∃ w, fenceSetWaits c5 = [w] ∧ gpuSignalSets c4 = List.replicate 3 w) := by
  have hi : Initialised (initState 3 m0) :=
    Initialised_initState 3 m0 (by decide) (by decide)
  have hlen : (initState 3 m0).ctx.m_frameFences.length = 2 := rfl
  have hidx0 : (initState 3 m0).ctx.m_currentFrameIndex = 0 := rfl
  refine ⟨_, _, _, _, _, _, _, Init_ok 3 m0, runFrames_ok ff _ _ hi,
    callsOfFrame_ok ff _ hi _ 0 (by simp [scenarioAFrames]),
    callsOfFrame_ok ff _ hi _ 1 (by simp [scenarioAFrames]),
    callsOfFrame_ok ff _ hi _ 2 (by simp [scenarioAFrames]),
    callsOfFrame_ok ff _ hi _ 3 (by simp [scenarioAFrames]),
    callsOfFrame_ok ff _ hi _ 4 (by simp [scenarioAFrames]), ⟨?_, ?_, rfl⟩, ⟨?_, rfl⟩, rfl,
    ⟨FenceSetRef.frame 0, ?_, ?_⟩, ⟨FenceSetRef.frame 1, ?_, ?_⟩,
    ⟨FenceSetRef.frame 0, ?_, ?_⟩, ⟨FenceSetRef.frame 1, ?_, ?_⟩⟩
  all_goals
    first
    | (rw [fenceSetWaits_frame, hidx0, hlen])
    | (rw [gpuSignalSets_frame, hidx0, hlen])
    | (simp only [initState, List.drop_left]; exact gpuSignalSets_initCalls 3)

/-! ## The compiled fences -/

theorem PerClass.get_set {α : Type} (a : PerClass α) (c d : HardwareQueueClass) (v : α) :
    (a.set c v).get d = if d = c then v else a.get d := by
  cases c <;> cases d <;> simp [PerClass.get, PerClass.set]

theorem stepCollect_ok (ff : Bool) (acc : List (HardwareQueueClass × Nat) × Machine)
    (h : Initialised acc.2) (op : Op) :
    stepCollect ff acc op = .ok (collectState ff acc op) ∧
      (collectState ff acc op).2 = opState ff acc.2 op := by
  cases op with
  | Begin => simp [stepCollect, collectState, step_ok ff acc.2 h, bind, Except.bind, pure, Except.pure]
  | ExecuteWork c r =>
    simp [stepCollect, collectState, step_ok ff acc.2 h, bind, Except.bind, pure, Except.pure]
  | IncrementFence c => exact ⟨rfl, rfl⟩
  | End => simp [stepCollect, collectState, step_ok ff acc.2 h, bind, Except.bind, pure, Except.pure]

theorem runCollect_ok (ff : Bool) (ops : List Op) :
    ∀ acc : List (HardwareQueueClass × Nat) × Machine, Initialised acc.2 →
      ops.foldlM (stepCollect ff) acc = .ok (ops.foldl (collectState ff) acc) ∧
      (ops.foldl (collectState ff) acc).2 = ops.foldl (opState ff) acc.2 := by
  induction ops with
  | nil => intro acc _; exact ⟨rfl, rfl⟩
  | cons op ops ih =>
    intro acc h
    obtain ⟨h1, h2⟩ := stepCollect_ok ff acc h op
    have h3 : Initialised (collectState ff acc op).2 := by
      rw [h2]; exact Initialised_opState ff h op
    obtain ⟨h4, h5⟩ := ih _ h3
    refine ⟨?_, ?_⟩
    · simp only [List.foldlM, h1, bind, Except.bind, List.foldl_cons]
      exact h4
    · rw [List.foldl_cons, h5, h2, List.foldl_cons]

theorem Increasing_collectState (ff : Bool) (acc : List (HardwareQueueClass × Nat) × Machine)
    (h : Increasing acc) (op : Op) : Increasing (collectState ff acc op) := by
  cases op with
  | Begin => exact h
  | ExecuteWork c r => exact h
  | End => exact h
  | IncrementFence c =>
    intro d
    obtain ⟨hp, hb⟩ := h d
    by_cases hdc : d = c
    · subst hdc
      have hr : returnedFor d (acc.1 ++ [(d, (acc.2.ctx.m_compiledFences.GetFence d).target + 1)])
          = returnedFor d acc.1 ++ [(acc.2.ctx.m_compiledFences.GetFence d).target + 1] := by
        simp [returnedFor, List.filter_append]
      simp only [collectState, Fence.Increment, incrementState, FenceSet.GetFence,
        PerClass.get_set, if_true]
      simp only [FenceSet.GetFence] at hr hb
      rw [hr]
      refine ⟨?_, ?_⟩
      · rw [List.pairwise_append]
        refine ⟨hp, List.pairwise_singleton _ _, ?_⟩
        intro a ha b hb1
        have := hb a ha
        simp only [List.mem_singleton] at hb1
        omega
      · intro v hv
        rw [List.mem_append, List.mem_singleton] at hv
        rcases hv with hv | hv
        · have := hb v hv
          omega
        · omega
    · have hr : returnedFor d (acc.1 ++ [(c, (acc.2.ctx.m_compiledFences.GetFence c).target + 1)])
          = returnedFor d acc.1 := by
        have : ¬ c = d := fun e => hdc e.symm
        simp [returnedFor, List.filter_append, this]
      simp only [collectState, Fence.Increment, incrementState, FenceSet.GetFence,
        PerClass.get_set, if_neg hdc]
      simp only [FenceSet.GetFence] at hr hb
      rw [hr]
      exact ⟨hp, hb⟩

theorem Increasing_run (ff : Bool) (ops : List Op) :
    ∀ acc : List (HardwareQueueClass × Nat) × Machine, Increasing acc →
      Increasing (ops.foldl (collectState ff) acc) := by
  induction ops with
  | nil => intro acc h; exact h
  | cons op ops ih =>
    intro acc h
    exact ih _ (Increasing_collectState ff acc h op)

theorem steady_returns_increase (ff : Bool) (m : Machine) (h : Initialised m)
    (ops : List Op) (c : HardwareQueueClass) :
    ∃ rets m1, runCollect ff m ops = .ok (rets, m1) ∧ run ff m ops = .ok m1 ∧
      List.Pairwise (fun a b => a < b) (returnedFor c rets) := by
  obtain ⟨h1, h2⟩ := runCollect_ok ff ops ([], m) h
  have h3 : Increasing (ops.foldl (collectState ff) ([], m)) := by
    apply Increasing_run
    intro d
    exact ⟨List.Pairwise.nil, fun v hv => by simp [returnedFor] at hv⟩
  refine ⟨_, _, h1, ?_, (h3 c).1⟩
  rw [run_ok ff ops m h, h2]

/-- C12: on every context and for every class c, IncrementFence(c) returns a value v, one
more than the previous target, and afterwards the target of the fence of class c read
through GetCompiledFences is v. -/
theorem IncrementFence_target_is_returned_value (m : Machine) (c : HardwareQueueClass) :
    ∃ v m1, IncrementFence c m = .ok (v, m1) ∧
      ((GetCompiledFences m1).GetFence c).target = v ∧
      v = ((GetCompiledFences m).GetFence c).target + 1 := by
  refine ⟨_, _, rfl, ?_, rfl⟩
  simp [GetCompiledFences, Fence.Increment, FenceSet.GetFence, PerClass.get_set]

/-- C13: for distinct classes c and d, IncrementFence(c) succeeds on every context, makes
one call, the Increment of the compiled fence of class c, and leaves the compiled fence of
class d, every fence set of the frame ring, the current frame index and the queues as they
were. -/
theorem IncrementFence_isolation (m : Machine) (c d : HardwareQueueClass) (hcd : c ≠ d) :
    ∃ v m1, IncrementFence c m = .ok (v, m1) ∧
      m1.trace = m.trace ++ [Call.FenceIncrement .compiled c] ∧
      (GetCompiledFences m1).GetFence d = (GetCompiledFences m).GetFence d ∧
      m1.ctx.m_frameFences = m.ctx.m_frameFences ∧
      m1.ctx.m_currentFrameIndex = m.ctx.m_currentFrameIndex ∧
      m1.ctx.m_commandQueues = m.ctx.m_commandQueues := by
  refine ⟨_, _, rfl, rfl, ?_, rfl, rfl, rfl⟩
  have hdc : ¬ d = c := fun e => hcd e.symm
  simp [GetCompiledFences, FenceSet.GetFence, PerClass.get_set, hdc]

/-- Witness for C13: incrementing the Compute fence after Init leaves the Graphics fence. -/
theorem IncrementFence_isolation_witness :
    ∃ v m1, IncrementFence .Compute (initState 3 default) = .ok (v, m1) ∧
      m1.trace = (initState 3 default).trace ++ [Call.FenceIncrement .compiled .Compute] ∧
      (GetCompiledFences m1).GetFence .Graphics
        = (GetCompiledFences (initState 3 default)).GetFence .Graphics ∧
      m1.ctx.m_frameFences = (initState 3 default).ctx.m_frameFences ∧
      m1.ctx.m_currentFrameIndex = (initState 3 default).ctx.m_currentFrameIndex ∧
      m1.ctx.m_commandQueues = (initState 3 default).ctx.m_commandQueues :=
  IncrementFence_isolation (initState 3 default) .Compute .Graphics (by decide)

/-! ## Shutdown -/

theorem WaitForIdle_any (m : Machine) :
    WaitForIdle m =
      .ok { ctx := m.ctx, trace := m.trace ++ (liveClasses m).map Call.QueueWaitForIdle } := by
  obtain ⟨⟨⟨g, c, p⟩, ring, comp, idx⟩, tr⟩ := m
  cases g <;> cases c <;> cases p <;>
    simp [WaitForIdle, liveClasses, HardwareQueueClass.all, List.foldlM, onQueue, PerClass.get,
      PerClass.set, bind, Except.bind, pure, Except.pure]

theorem Shutdown_any (m : Machine) :
    Shutdown m =
      .ok { ctx := { m.ctx with m_frameFences := [], m_commandQueues := PerClass.fill none },
            trace := m.trace ++ shutdownCalls m } := by
  simp [Shutdown, WaitForIdle_any, Machine.emit, shutdownCalls, bind, Except.bind]

/-- C14: Shutdown returns without fault on every context state, whichever queue pointers
are null and whatever the ring length and index, and again when called a second time; it
calls WaitForIdle on exactly the queues whose pointer is non-null, then shuts down the
compiled fence set and every fence set of the ring. -/
theorem Shutdown_never_faults (m : Machine) :
    ∃ m1 m2 calls, Shutdown m = .ok m1 ∧ Shutdown m1 = .ok m2 ∧
      callsOf Shutdown m = .ok calls ∧
      idleWaits calls = liveClasses m ∧
      calls = (liveClasses m).map Call.QueueWaitForIdle ++ [Call.FenceSetShutdown .compiled]
        ++ (List.range m.ctx.m_frameFences.length).map
            (fun k => Call.FenceSetShutdown (.frame k)) := by
  have hid : ∀ l : List HardwareQueueClass, idleWaits (l.map Call.QueueWaitForIdle) = l := by
    intro l
    induction l with
    | nil => rfl
    | cons x xs ih =>
      simp only [idleWaits] at ih
      simp [idleWaits, ih]
  have hsh : ∀ l : List Nat,
      idleWaits (l.map (fun k => Call.FenceSetShutdown (.frame k))) = [] := by
    intro l
    induction l with
    | nil => rfl
    | cons x xs ih =>
      simp only [idleWaits] at ih
      simp [idleWaits, ih]
  refine ⟨_, _, _, Shutdown_any m, Shutdown_any _, ?_, ?_, rfl⟩
  · simp [callsOf, Shutdown_any, bind, Except.bind, pure, Except.pure, shutdownCalls]
  · simp only [idleWaits, List.filterMap_append] at hid hsh ⊢
    rw [hid, hsh]
    simp

/-! ## The queues after Init -/

theorem queueSetupCalls_initCalls (FrameCountMax : Nat) :
    queueSetupCalls (initCalls FrameCountMax) =
      [Call.QueueSetName .Graphics "Graphics Queue",
       Call.QueueInit .Graphics
         { m_hardwareQueueClass := .Graphics, m_hardwareQueueSubclass := .Primary },
       Call.QueueSetName .Compute "Compute Queue",
       Call.QueueInit .Compute
         { m_hardwareQueueClass := .Compute, m_hardwareQueueSubclass := .Primary },
       Call.QueueSetName .Copy "Copy Queue",
       Call.QueueInit .Copy
         { m_hardwareQueueClass := .Copy, m_hardwareQueueSubclass := .Primary }] := by
  have hmap : ∀ l : List Nat,
      queueSetupCalls (l.map (fun k => Call.FenceSetInit (.frame k) .Signaled)) = [] := by
    intro l
    induction l with
    | nil => rfl
    | cons x xs ih =>
      simp only [queueSetupCalls] at ih
      simp [queueSetupCalls, List.filter_cons, ih]
  unfold initCalls
  simp only [queueSetupCalls, List.filter_append] at hmap ⊢
  rw [hmap]
  simp [List.filter_cons]

/-- C15 (Scenario D): after Init, run on any context with any frame count, GetCommandQueue
returns a queue for each of the three classes (no pointer is null), the three queues are
pairwise different, the queue of class Graphics, Compute, Copy has the name
"Graphics Queue", "Compute Queue", "Copy Queue", and each was initialised with a descriptor
naming its own class and the subclass Primary; the SetName and Init calls that Init makes on
the queues are exactly these six. -/
theorem Init_queues_distinct_and_named (FrameCountMax : Nat) (m : Machine) :
    ∃ mi g c p, Init FrameCountMax m = .ok mi ∧
      GetCommandQueue .Graphics mi = .ok g ∧
      GetCommandQueue .Compute mi = .ok c ∧
      GetCommandQueue .Copy mi = .ok p ∧
      g ≠ c ∧ g ≠ p ∧ c ≠ p ∧
      g.name = "Graphics Queue" ∧ c.name = "Compute Queue" ∧ p.name = "Copy Queue" ∧
      g.descriptor
        = some { m_hardwareQueueClass := .Graphics, m_hardwareQueueSubclass := .Primary } ∧
      c.descriptor
        = some { m_hardwareQueueClass := .Compute, m_hardwareQueueSubclass := .Primary } ∧
      p.descriptor
        = some { m_hardwareQueueClass := .Copy, m_hardwareQueueSubclass := .Primary } ∧
      queueSetupCalls (mi.trace.drop m.trace.length) =
        [Call.QueueSetName .Graphics "Graphics Queue",
         Call.QueueInit .Graphics
           { m_hardwareQueueClass := .Graphics, m_hardwareQueueSubclass := .Primary },
         Call.QueueSetName .Compute "Compute Queue",
         Call.QueueInit .Compute
           { m_hardwareQueueClass := .Compute, m_hardwareQueueSubclass := .Primary },
         Call.QueueSetName .Copy "Copy Queue",
         Call.QueueInit .Copy
           { m_hardwareQueueClass := .Copy, m_hardwareQueueSubclass := .Primary }] := by
  refine ⟨_, _, _, _, Init_ok FrameCountMax m, rfl, rfl, rfl, ?_, ?_, ?_, rfl, rfl, rfl,
    rfl, rfl, rfl, ?_⟩
  · intro e
    have := congrArg (fun q => q.descriptor) e
    simp [initQueueOf] at this
  · intro e
    have := congrArg (fun q => q.descriptor) e
    simp [initQueueOf] at this
  · intro e
    have := congrArg (fun q => q.descriptor) e
    simp [initQueueOf] at this
  · simp only [initState, List.drop_left]
    exact queueSetupCalls_initCalls FrameCountMax

/-! ## Begin -/

/-- C16: on an initialised context Begin succeeds, its calls are exactly one ClearTimers on
the Graphics, Compute and Copy queue, in that order, so it waits on no fence set and calls no
WaitForIdle, and it leaves the current frame index, the frame ring and the compiled fence set
as they were. -/
theorem Begin_clears_timers_only (m : Machine) (h : Initialised m) :
    ∃ m1 calls, Begin m = .ok m1 ∧ callsOf Begin m = .ok calls ∧
      calls = [Call.ClearTimers .Graphics, Call.ClearTimers .Compute, Call.ClearTimers .Copy] ∧
      fenceSetWaits calls = [] ∧ idleWaits calls = [] ∧
      m1.ctx.m_currentFrameIndex = m.ctx.m_currentFrameIndex ∧
      m1.ctx.m_frameFences = m.ctx.m_frameFences ∧
      m1.ctx.m_compiledFences = m.ctx.m_compiledFences := by
  refine ⟨_, _, Begin_ok m h, ?_, rfl, rfl, rfl, rfl, rfl, rfl⟩
  simp [callsOf, Begin_ok m h, bind, Except.bind, pure, Except.pure, beginState,
    HardwareQueueClass.all]

/-- Witness for C16: Begin on the context left by Init with three frames in flight. -/
theorem Begin_clears_timers_only_witness :
    ∃ m1 calls, Begin (initState 3 default) = .ok m1 ∧
      callsOf Begin (initState 3 default) = .ok calls ∧
      calls = [Call.ClearTimers .Graphics, Call.ClearTimers .Compute, Call.ClearTimers .Copy] ∧
      fenceSetWaits calls = [] ∧ idleWaits calls = [] ∧
      m1.ctx.m_currentFrameIndex = (initState 3 default).ctx.m_currentFrameIndex ∧
      m1.ctx.m_frameFences = (initState 3 default).ctx.m_frameFences ∧
      m1.ctx.m_compiledFences = (initState 3 default).ctx.m_compiledFences :=
  Begin_clears_timers_only (initState 3 default) (by decide)

/-! ## Submission order and blocking on the per-frame path -/

theorem opState_trace (ff : Bool) (m : Machine) (op : Op) :
    (opState ff m op).trace = m.trace ++ opCalls ff m op := by
  cases op <;> simp [opState, opCalls, beginState, workState, incrementState, endState]

theorem run_trace (ff : Bool) (ops : List Op) :
    ∀ m : Machine, (ops.foldl (opState ff) m).trace = m.trace ++ runCalls ff m ops := by
  induction ops with
  | nil => intro m; simp [runCalls]
  | cons op ops ih =>
    intro m
    rw [List.foldl_cons, ih, opState_trace, runCalls, List.append_assoc]

theorem callsOf_run (ff : Bool) (m : Machine) (h : Initialised m) (ops : List Op) :
    callsOf (fun s => run ff s ops) m = .ok (runCalls ff m ops) := by
  simp only [callsOf, run_ok ff ops m h, bind, Except.bind, pure, Except.pure]
  rw [run_trace, List.drop_left]

theorem callsOf_step (ff : Bool) (m : Machine) (h : Initialised m) (op : Op) :
    callsOf (fun s => step ff s op) m = .ok (opCalls ff m op) := by
  simp only [callsOf, step_ok ff m h op, bind, Except.bind, pure, Except.pure]
  rw [opState_trace, List.drop_left]

theorem queueSubmissions_append (c : HardwareQueueClass) (xs ys : List Call) :
    queueSubmissions c (xs ++ ys) = queueSubmissions c xs ++ queueSubmissions c ys := by
  simp [queueSubmissions, List.filterMap_append]

theorem queueSubmissions_opCalls (ff : Bool) (m : Machine) (c : HardwareQueueClass) (op : Op) :
    queueSubmissions c (opCalls ff m op) = opsSubmissions c [op] := by
  cases op with
  | Begin => rfl
  | IncrementFence d => rfl
  | End => rfl
  | ExecuteWork d r =>
    cases ff <;> by_cases hd : d = c <;>
      simp [opCalls, workCalls, queueSubmissions, opsSubmissions, HardwareQueueClass.all, hd]

theorem queueSubmissions_runCalls (ff : Bool) (c : HardwareQueueClass) (ops : List Op) :
    ∀ m : Machine, queueSubmissions c (runCalls ff m ops) = opsSubmissions c ops := by
  induction ops with
  | nil => intro m; rfl
  | cons op ops ih =>
    intro m
    rw [runCalls, queueSubmissions_append, ih, queueSubmissions_opCalls]
    simp [opsSubmissions, List.filterMap_cons]
    cases op <;> simp
    split <;> simp

/-- C17: on an initialised context every sequence of Begin, ExecuteWork, IncrementFence and
End calls, with or without forced flushing, runs without fault, and the requests handed to
the queue of class c are exactly the requests of the ExecuteWork calls made for class c, in
call order; one ExecuteWork(d, r) hands r to the queue of class d and nothing to the queue
of any other class. -/
theorem ExecuteWork_fifo_per_class (ff : Bool) (m : Machine) (h : Initialised m)
    (ops : List Op) (c d : HardwareQueueClass) (r : ExecuteWorkRequest) :
    (∃ calls, callsOf (fun s => run ff s ops) m = .ok calls ∧
      queueSubmissions c calls = opsSubmissions c ops) ∧
    (∃ calls, callsOf (ExecuteWork ff d r) m = .ok calls ∧
      queueSubmissions d calls = [r] ∧
      (c ≠ d → queueSubmissions c calls = [])) := by
  refine ⟨⟨_, callsOf_run ff m h ops, queueSubmissions_runCalls ff c ops m⟩, ?_⟩
  have hs := callsOf_step ff m h (Op.ExecuteWork d r)
  simp only [step] at hs
  refine ⟨_, hs, ?_, ?_⟩
  · rw [queueSubmissions_opCalls]
    simp [opsSubmissions]
  · intro hcd
    rw [queueSubmissions_opCalls]
    have : ¬ d = c := fun e => hcd e.symm
    simp [opsSubmissions, this]

/-- Witness for C17: two Graphics submissions around a Compute submission and a frame
boundary keep their order on the Graphics queue. -/
theorem ExecuteWork_fifo_per_class_witness :
    ∃ calls,
      callsOf (fun s => run true s
        [Op.ExecuteWork .Graphics 5, Op.ExecuteWork .Compute 6, Op.End, Op.Begin,
         Op.ExecuteWork .Graphics 4]) (initState 3 default) = .ok calls ∧
      queueSubmissions .Graphics calls = [5, 4] :=
  (ExecuteWork_fifo_per_class true (initState 3 default) (by decide)
    [Op.ExecuteWork .Graphics 5, Op.ExecuteWork .Compute 6, Op.End, Op.Begin,
     Op.ExecuteWork .Graphics 4] .Graphics .Copy 9).1

theorem idleWaits_append (xs ys : List Call) :
    idleWaits (xs ++ ys) = idleWaits xs ++ idleWaits ys := by
  simp [idleWaits, List.filterMap_append]

theorem fenceSetWaits_append (xs ys : List Call) :
    fenceSetWaits (xs ++ ys) = fenceSetWaits xs ++ fenceSetWaits ys := by
  simp [fenceSetWaits, List.filterMap_append]

theorem waits_opCalls (m : Machine) (op : Op) :
    idleWaits (opCalls false m op) = [] ∧
    fenceSetWaits (opCalls false m op)
      = if op = Op.End then
          [FenceSetRef.frame ((m.ctx.m_currentFrameIndex + 1) % m.ctx.m_frameFences.length)]
        else [] := by
  cases op with
  | Begin => exact ⟨rfl, rfl⟩
  | IncrementFence d => exact ⟨rfl, rfl⟩
  | End => exact ⟨rfl, rfl⟩
  | ExecuteWork d r => exact ⟨rfl, rfl⟩

theorem waits_runCalls (ops : List Op) :
    ∀ m : Machine, idleWaits (runCalls false m ops) = [] ∧
      (fenceSetWaits (runCalls false m ops)).length = ops.count Op.End := by
  induction ops with
  | nil => intro m; exact ⟨rfl, rfl⟩
  | cons op ops ih =>
    intro m
    obtain ⟨h1, h2⟩ := ih (opState false m op)
    obtain ⟨h3, h4⟩ := waits_opCalls m op
    refine ⟨?_, ?_⟩
    · rw [runCalls, idleWaits_append, h1, h3]
      rfl
    · rw [runCalls, fenceSetWaits_append, List.length_append, h2, h4, List.count_cons]
      by_cases he : op = Op.End
      · simp [he]; omega
      · simp [he]

/-- C18: with forced flushing disabled, on an initialised context every sequence of Begin,
ExecuteWork, IncrementFence and End calls runs without fault and never calls WaitForIdle on
a queue, and the number of fence-set Waits it makes is the number of End calls in it; taken
one at a time, Begin, ExecuteWork and IncrementFence make no Wait and no WaitForIdle, and
End makes exactly one fence-set Wait, on the slot it advances to. -/
theorem only_End_waits_on_frame_path (m : Machine) (h : Initialised m) (ops : List Op)
    (op : Op) :
    (∃ calls, callsOf (fun s => run false s ops) m = .ok calls ∧
      idleWaits calls = [] ∧ (fenceSetWaits calls).length = ops.count Op.End) ∧
    (∃ calls, callsOf (fun s => step false s op) m = .ok calls ∧
      idleWaits calls = [] ∧
      fenceSetWaits calls
        = if op = Op.End then
            [FenceSetRef.frame ((m.ctx.m_currentFrameIndex + 1) % m.ctx.m_frameFences.length)]
          else []) :=
  ⟨⟨_, callsOf_run false m h ops, waits_runCalls ops m⟩,
   ⟨_, callsOf_step false m h op, waits_opCalls m op⟩⟩

/-- Witness for C18: two frames after Init with three frames in flight make two fence-set
Waits and no WaitForIdle. -/
theorem only_End_waits_on_frame_path_witness :
    ∃ calls,
      callsOf (fun s => run false s
        [Op.Begin, Op.ExecuteWork .Graphics 1, Op.IncrementFence .Copy, Op.End,
         Op.Begin, Op.End]) (initState 3 default) = .ok calls ∧
      idleWaits calls = [] ∧ (fenceSetWaits calls).length = 2 :=
  (only_End_waits_on_frame_path (initState 3 default) (by decide)
    [Op.Begin, Op.ExecuteWork .Graphics 1, Op.IncrementFence .Copy, Op.End,
     Op.Begin, Op.End] Op.End).1

/-! ## Forced flushing -/

theorem onQueue_id_of_some (c : HardwareQueueClass) (call : Call) (m : Machine)
    (hq : (m.ctx.m_commandQueues.get c).isSome = true) :
    onQueue c call id m = .ok { ctx := m.ctx, trace := m.trace ++ [call] } := by
  obtain ⟨⟨⟨g, k, p⟩, ring, comp, idx⟩, tr⟩ := m
  cases c <;> simp only [PerClass.get] at hq
  · cases g <;> simp at hq
    simp [onQueue, PerClass.get, PerClass.set]
  · cases k <;> simp at hq
    simp [onQueue, PerClass.get, PerClass.set]
  · cases p <;> simp at hq
    simp [onQueue, PerClass.get, PerClass.set]

/-- C19: on a context whose queue of class c is non-null, ExecuteWork(c, r) with forced
flushing enabled succeeds and its calls are, in order, the ExecuteWork of r on the queue of
class c and then one WaitForIdle on every queue whose pointer is non-null, in class order;
with forced flushing disabled its only call is the ExecuteWork of r on the queue of class c,
so it calls no WaitForIdle.  Either way the members of the context are unchanged. -/
theorem ExecuteWork_forced_flush_waits_for_idle (m : Machine) (c : HardwareQueueClass)
    (r : ExecuteWorkRequest) (hq : (m.ctx.m_commandQueues.get c).isSome = true) :
    (∃ m1 calls, ExecuteWork true c r m = .ok m1 ∧ m1.ctx = m.ctx ∧
      callsOf (ExecuteWork true c r) m = .ok calls ∧
      calls = Call.QueueExecuteWork c r :: (liveClasses m).map Call.QueueWaitForIdle ∧
      c ∈ liveClasses m) ∧
    (∃ m1 calls, ExecuteWork false c r m = .ok m1 ∧ m1.ctx = m.ctx ∧
      callsOf (ExecuteWork false c r) m = .ok calls ∧
      calls = [Call.QueueExecuteWork c r] ∧ idleWaits calls = []) := by
  have ht : ExecuteWork true c r m =
      .ok { ctx := m.ctx,
            trace := m.trace ++ [Call.QueueExecuteWork c r]
              ++ (liveClasses m).map Call.QueueWaitForIdle } := by
    unfold ExecuteWork
    rw [onQueue_id_of_some c _ m hq]
    simp only [bind, Except.bind, if_true]
    rw [WaitForIdle_any]
    rfl
  have hf : ExecuteWork false c r m =
      .ok { ctx := m.ctx, trace := m.trace ++ [Call.QueueExecuteWork c r] } := by
    unfold ExecuteWork
    rw [onQueue_id_of_some c _ m hq]
    rfl
  refine ⟨⟨_, _, ht, rfl, ?_, rfl, ?_⟩, ⟨_, _, hf, rfl, ?_, rfl, rfl⟩⟩
  · simp [callsOf, ht, bind, Except.bind, pure, Except.pure]
  · simp only [liveClasses, List.mem_filter]
    exact ⟨by cases c <;> simp [HardwareQueueClass.all], hq⟩
  · simp [callsOf, hf, bind, Except.bind, pure, Except.pure]

/-- Witness for C19: a context whose Compute queue pointer is null; a forced-flush
ExecuteWork on the Graphics queue waits for idle on the Graphics and Copy queues only. -/
theorem ExecuteWork_forced_flush_waits_for_idle_witness :
    ∃ m1 calls,
      ExecuteWork true .Graphics 7
        { ctx := { (initState 3 default).ctx with
            m_commandQueues := (initState 3 default).ctx.m_commandQueues.set .Compute none },
          trace := [] } = .ok m1 ∧
      m1.ctx = { (initState 3 default).ctx with
            m_commandQueues := (initState 3 default).ctx.m_commandQueues.set .Compute none } ∧
      callsOf (ExecuteWork true .Graphics 7)
        { ctx := { (initState 3 default).ctx with
            m_commandQueues := (initState 3 default).ctx.m_commandQueues.set .Compute none },
          trace := [] } = .ok calls ∧
      calls = [Call.QueueExecuteWork .Graphics 7, Call.QueueWaitForIdle .Graphics,
               Call.QueueWaitForIdle .Copy] ∧
      HardwareQueueClass.Graphics ∈ [HardwareQueueClass.Graphics, HardwareQueueClass.Copy] :=
  (ExecuteWork_forced_flush_waits_for_idle
    { ctx := { (initState 3 default).ctx with
        m_commandQueues := (initState 3 default).ctx.m_commandQueues.set .Compute none },
      trace := [] } .Graphics 7 (by decide)).1

/-! ## Timing statistics -/

/-- Counterexample to C20: on an initialised context whose three queues each have the last
present duration 2^62, all of them `sys_time_t` values, the present duration that
UpdateCpuTimingStatistics leaves is -2^62, not the sum 3 * 2^62: the accumulator is a signed
64-bit integer. -/
theorem UpdateCpuTimingStatistics_present_duration_wraps :
    Initialised longPresentMachine ∧
    ∃ s g c p, UpdateCpuTimingStatistics default longPresentMachine
        = .ok (s, longPresentMachine) ∧
      GetCommandQueue .Graphics longPresentMachine = .ok g ∧
      GetCommandQueue .Compute longPresentMachine = .ok c ∧
      GetCommandQueue .Copy longPresentMachine = .ok p ∧
      g.lastPresentDuration + c.lastPresentDuration + p.lastPresentDuration
        = 13835058055282163712 ∧
      s.m_presentDuration = -4611686018427387904 ∧
      s.m_presentDuration
        ≠ g.lastPresentDuration + c.lastPresentDuration + p.lastPresentDuration :=
  ⟨by decide, _, _, _, _, rfl, rfl, rfl, rfl, by decide, by decide, by decide⟩

/-- C20 as amended: on an initialised context, whatever the statistics object held before,
UpdateCpuTimingStatistics succeeds and leaves in it exactly three queue entries, for the
Graphics, Compute and Copy queue in that order, each with the name and the last execute
duration of its queue, and a present duration equal to the sum of the last present durations
of the three queues brought into the signed 64-bit range of `sys_time_t`, which is the sum
itself whenever the sum lies in that range; the context is returned unchanged. -/
theorem UpdateCpuTimingStatistics_snapshot (stats : CpuTimingStatistics) (m : Machine)
    (h : Initialised m) :
    ∃ s g c p, UpdateCpuTimingStatistics stats m = .ok (s, m) ∧
      GetCommandQueue .Graphics m = .ok g ∧
      GetCommandQueue .Compute m = .ok c ∧
      GetCommandQueue .Copy m = .ok p ∧
      s.m_queueStatistics =
        [{ m_queueName := g.name, m_executeDuration := g.lastExecuteDuration },
         { m_queueName := c.name, m_executeDuration := c.lastExecuteDuration },
         { m_queueName := p.name, m_executeDuration := p.lastExecuteDuration }] ∧
      s.m_presentDuration
        = wrapSysTime
            (g.lastPresentDuration + c.lastPresentDuration + p.lastPresentDuration) ∧
      (-9223372036854775808
          ≤ g.lastPresentDuration + c.lastPresentDuration + p.lastPresentDuration →
        g.lastPresentDuration + c.lastPresentDuration + p.lastPresentDuration
          < 9223372036854775808 →
        s.m_presentDuration
          = g.lastPresentDuration + c.lastPresentDuration + p.lastPresentDuration) := by
  obtain ⟨g, c, p, hq, hu⟩ := UpdateCpuTimingStatistics_ok stats m h
  refine ⟨_, g, c, p, hu, ?_, ?_, ?_, rfl, ?_, ?_⟩
  · simp [GetCommandQueue, hq, PerClass.get]
  · simp [GetCommandQueue, hq, PerClass.get]
  · simp [GetCommandQueue, hq, PerClass.get]
  · simp only [wrapSysTime]
    omega
  · intro hlo hhi
    simp only [wrapSysTime]
    omega

/-- Witness for C20: a statistics object that already holds an entry and a present duration,
updated from a context whose queues have present durations 5, 7 and 11. -/
theorem UpdateCpuTimingStatistics_snapshot_witness :
    ∃ s g c p,
      UpdateCpuTimingStatistics
        { m_queueStatistics := [{ m_queueName := "stale", m_executeDuration := 99 }],
          m_presentDuration := 1000 } timedMachine = .ok (s, timedMachine) ∧
      GetCommandQueue .Graphics timedMachine = .ok g ∧
      GetCommandQueue .Compute timedMachine = .ok c ∧
      GetCommandQueue .Copy timedMachine = .ok p ∧
      s.m_queueStatistics =
        [{ m_queueName := g.name, m_executeDuration := g.lastExecuteDuration },
         { m_queueName := c.name, m_executeDuration := c.lastExecuteDuration },
         { m_queueName := p.name, m_executeDuration := p.lastExecuteDuration }] ∧
      s.m_presentDuration
        = wrapSysTime
            (g.lastPresentDuration + c.lastPresentDuration + p.lastPresentDuration) ∧
      (-9223372036854775808
          ≤ g.lastPresentDuration + c.lastPresentDuration + p.lastPresentDuration →
        g.lastPresentDuration + c.lastPresentDuration + p.lastPresentDuration
          < 9223372036854775808 →
        s.m_presentDuration
          = g.lastPresentDuration + c.lastPresentDuration + p.lastPresentDuration) :=
  UpdateCpuTimingStatistics_snapshot
    { m_queueStatistics := [{ m_queueName := "stale", m_executeDuration := 99 }],
      m_presentDuration := 1000 } timedMachine (by decide)

/-! ## Contract violations -/

theorem ExecuteWork_of_some (ff : Bool) (m : Machine) (c : HardwareQueueClass)
    (r : ExecuteWorkRequest) (hq : (m.ctx.m_commandQueues.get c).isSome = true) :
    ExecuteWork ff c r m =
      .ok { ctx := m.ctx,
            trace := m.trace ++ ([Call.QueueExecuteWork c r]
              ++ (if ff then (liveClasses m).map Call.QueueWaitForIdle else [])) } := by
  unfold ExecuteWork
  rw [onQueue_id_of_some c _ m hq]
  cases ff
  · simp [bind, Except.bind]
  · simp only [bind, Except.bind, if_true]
    rw [WaitForIdle_any]
    simp [liveClasses]

theorem queueSubmissions_idle (c : HardwareQueueClass) (l : List HardwareQueueClass) :
    queueSubmissions c (l.map Call.QueueWaitForIdle) = [] := by
  induction l with
  | nil => rfl
  | cons x xs ih =>
    simp only [queueSubmissions] at ih
    simp [queueSubmissions, ih]

/-- Counterexample to C21: on a context on which Init has not run, GetCommandQueue and
ExecuteWork (with or without forced flushing) dereference the null queue pointer of the
class, and on an initialised context with the class value 3 they read outside the queue
array; each is undefined behaviour, not a reported precondition failure. -/
theorem GetCommandQueue_reports_no_precondition_failure :
    GetCommandQueue .Graphics default = .error (Fault.nullQueue .Graphics) ∧
    ExecuteWork false .Graphics 1 default = .error (Fault.nullQueue .Graphics) ∧
    ExecuteWork true .Compute 2 default = .error (Fault.nullQueue .Compute) ∧
    GetCommandQueueAt 3 (initState 3 default) = .error (Fault.queueOutOfBounds 3) ∧
    ExecuteWorkAt false 3 1 (initState 3 default) = .error (Fault.queueOutOfBounds 3) ∧
    ExecuteWorkAt true 3 1 (initState 3 default) = .error (Fault.queueOutOfBounds 3) :=
  ⟨rfl, rfl, rfl, rfl, rfl, rfl⟩

/-- C21 as amended: GetCommandQueue and ExecuteWork make no check and report no
precondition failure.  For a class value outside the three enumerators they read outside
the queue array; for one of the three enumerators they are the member functions on that
class: when its queue pointer is null they dereference it, and when it is non-null
GetCommandQueue returns that queue and ExecuteWork succeeds and hands the request to it.
The read outside the array and the null dereference are undefined behaviour. -/
theorem GetCommandQueue_and_ExecuteWork_are_unchecked (ff : Bool) (m : Machine)
    (value : Nat) (c : HardwareQueueClass) (r : ExecuteWorkRequest) :
    (HardwareQueueClassCount ≤ value →
      GetCommandQueueAt value m = .error (Fault.queueOutOfBounds value) ∧
      ExecuteWorkAt ff value r m = .error (Fault.queueOutOfBounds value)) ∧
    (GetCommandQueueAt c.toIdx m = GetCommandQueue c m ∧
      ExecuteWorkAt ff c.toIdx r m = ExecuteWork ff c r m) ∧
    (m.ctx.m_commandQueues.get c = none →
      GetCommandQueue c m = .error (Fault.nullQueue c) ∧
      ExecuteWork ff c r m = .error (Fault.nullQueue c)) ∧
    (∀ q, m.ctx.m_commandQueues.get c = some q →
      GetCommandQueue c m = .ok q ∧
      ∃ m1 calls, ExecuteWork ff c r m = .ok m1 ∧
        callsOf (ExecuteWork ff c r) m = .ok calls ∧ queueSubmissions c calls = [r]) := by
  refine ⟨?_, ⟨by cases c <;> rfl, by cases c <;> rfl⟩, ?_, ?_⟩
  · intro hv
    match value, hv with
    | 0, hv => simp [HardwareQueueClassCount] at hv
    | 1, hv => simp [HardwareQueueClassCount] at hv
    | 2, hv => simp [HardwareQueueClassCount] at hv
    | n + 3, _ => exact ⟨rfl, rfl⟩
  · intro hn
    simp [GetCommandQueue, ExecuteWork, onQueue, hn, bind, Except.bind]
  · intro q hq
    have hs : (m.ctx.m_commandQueues.get c).isSome = true := by simp [hq]
    have he := ExecuteWork_of_some ff m c r hs
    refine ⟨by simp [GetCommandQueue, hq], _,
      [Call.QueueExecuteWork c r]
        ++ (if ff then (liveClasses m).map Call.QueueWaitForIdle else []), he, ?_, ?_⟩
    · simp only [callsOf, he, bind, Except.bind, pure, Except.pure]
      rw [List.drop_left]
    · rw [queueSubmissions_append]
      cases ff
      · simp [queueSubmissions]
      · simp only [if_true, queueSubmissions_idle]
        simp [queueSubmissions]

/-! ## WaitForIdle right after Init -/

theorem queueSubmissions_initCalls (c : HardwareQueueClass) (FrameCountMax : Nat) :
    queueSubmissions c (initCalls FrameCountMax) = [] := by
  have hmap : ∀ l : List Nat,
      queueSubmissions c (l.map (fun k => Call.FenceSetInit (.frame k) .Signaled)) = [] := by
    intro l
    induction l with
    | nil => rfl
    | cons x xs ih =>
      simp only [queueSubmissions] at ih
      simp [queueSubmissions, ih]
  unfold initCalls
  rw [queueSubmissions_append, queueSubmissions_append, hmap]
  rfl

/-- C22 (Scenario C): right after Init, on any context and for any frame count, no request
has been handed to any queue since Init began, and WaitForIdle returns without fault after
exactly one WaitForIdle call on the Graphics, the Compute and the Copy queue, in that order;
it leaves every member of the context, the frame index and all fences among them, as it
was. -/
theorem WaitForIdle_after_Init (FrameCountMax : Nat) (m0 : Machine) :
    ∃ mi m1 calls, Init FrameCountMax m0 = .ok mi ∧
      (∀ c, queueSubmissions c (mi.trace.drop m0.trace.length) = []) ∧
      WaitForIdle mi = .ok m1 ∧ callsOf WaitForIdle mi = .ok calls ∧
      calls = [Call.QueueWaitForIdle .Graphics, Call.QueueWaitForIdle .Compute,
               Call.QueueWaitForIdle .Copy] ∧
      m1.ctx = mi.ctx ∧
      m1.ctx.m_currentFrameIndex = mi.ctx.m_currentFrameIndex ∧
      m1.ctx.m_frameFences = mi.ctx.m_frameFences ∧
      m1.ctx.m_compiledFences = mi.ctx.m_compiledFences := by
  refine ⟨_, _, _, Init_ok FrameCountMax m0, ?_, WaitForIdle_any _, ?_, rfl, rfl, rfl, rfl,
    rfl⟩
  · intro c
    simp only [initState, List.drop_left]
    exact queueSubmissions_initCalls c FrameCountMax
  · simp only [callsOf, WaitForIdle_any, bind, Except.bind, pure, Except.pure]
    rw [List.drop_left]
    rfl

/-! ## The compiled fence set during frame pacing -/

/-- C24: on an initialised context End and Begin succeed and leave the compiled fence set
as it was: every fence of it has the same target and the same state afterwards. -/
theorem End_and_Begin_keep_compiled_fences (m : Machine) (h : Initialised m) :
    ∃ m1 m2, End m = .ok m1 ∧ Begin m = .ok m2 ∧
      GetCompiledFences m1 = GetCompiledFences m ∧
      GetCompiledFences m2 = GetCompiledFences m ∧
      (∀ c, ((GetCompiledFences m1).GetFence c).target
              = ((GetCompiledFences m).GetFence c).target ∧
            ((GetCompiledFences m1).GetFence c).state
              = ((GetCompiledFences m).GetFence c).state ∧
            ((GetCompiledFences m2).GetFence c).target
              = ((GetCompiledFences m).GetFence c).target ∧
            ((GetCompiledFences m2).GetFence c).state
              = ((GetCompiledFences m).GetFence c).state) :=
  ⟨_, _, End_ok m h, Begin_ok m h, rfl, rfl, fun _ => ⟨rfl, rfl, rfl, rfl⟩⟩

/-- Witness for C24: a context whose compiled Compute fence has been incremented keeps that
fence set through End and Begin. -/
theorem End_and_Begin_keep_compiled_fences_witness :
    ∃ m1 m2, End (incrementState .Compute (initState 3 default)) = .ok m1 ∧
      Begin (incrementState .Compute (initState 3 default)) = .ok m2 ∧
      GetCompiledFences m1 = GetCompiledFences (incrementState .Compute (initState 3 default)) ∧
      GetCompiledFences m2 = GetCompiledFences (incrementState .Compute (initState 3 default)) :=
  match End_and_Begin_keep_compiled_fences (incrementState .Compute (initState 3 default))
      (by decide) with
  | ⟨m1, m2, h1, h2, h3, h4, _⟩ => ⟨m1, m2, h1, h2, h3, h4⟩

/-! ## The signaled and the waited slot -/

/-- C26: on an initialised context with current index i and ring size R, End signals the
fence set of slot i and waits on and resets the fence set of slot (i + 1) mod R; for
R >= 2 that is a different slot, for R = 1 it is the same slot, so End then waits for the
frame it has just submitted. -/
theorem End_waited_slot_versus_signaled_slot (m : Machine) (h : Initialised m) :
    ∃ calls, callsOfEnd m = .ok calls ∧
      gpuSignalSets calls = List.replicate 3 (FenceSetRef.frame m.ctx.m_currentFrameIndex) ∧
      waitResetCalls calls =
        [Call.FenceSetWait
           (.frame ((m.ctx.m_currentFrameIndex + 1) % m.ctx.m_frameFences.length)),
         Call.FenceSetReset
           (.frame ((m.ctx.m_currentFrameIndex + 1) % m.ctx.m_frameFences.length))] ∧
      (2 ≤ m.ctx.m_frameFences.length →
        (m.ctx.m_currentFrameIndex + 1) % m.ctx.m_frameFences.length
          ≠ m.ctx.m_currentFrameIndex) ∧
      (m.ctx.m_frameFences.length = 1 →
        (m.ctx.m_currentFrameIndex + 1) % m.ctx.m_frameFences.length
          = m.ctx.m_currentFrameIndex) := by
  refine ⟨_, callsOfEnd_ok m h, rfl, rfl, ?_, ?_⟩
  · intro hR he
    have hidx := h.2.2.2.2.2
    by_cases hlast : m.ctx.m_currentFrameIndex + 1 = m.ctx.m_frameFences.length
    · rw [hlast, Nat.mod_self] at he
      omega
    · rw [Nat.mod_eq_of_lt (by omega)] at he
      omega
  · intro hR
    have hidx := h.2.2.2.2.2
    rw [hR] at hidx ⊢
    rw [Nat.mod_one]
    omega

/-- Witness for C26 with ring size 2: the first End after Init with three frames in flight
signals slot 0 and waits on slot 1. -/
theorem End_waited_slot_versus_signaled_slot_witness :
    ∃ calls, callsOfEnd (initState 3 default) = .ok calls ∧
      gpuSignalSets calls = List.replicate 3 (FenceSetRef.frame 0) ∧
      waitResetCalls calls
        = [Call.FenceSetWait (.frame 1), Call.FenceSetReset (.frame 1)] ∧
      (2 ≤ 2 → 1 ≠ 0) ∧ (2 = 1 → 1 = 0) :=
  End_waited_slot_versus_signaled_slot (initState 3 default) (by decide)

/-! ## Shutdown is idempotent -/

/-- C27: on every context state Shutdown succeeds and leaves every queue pointer null and
the frame ring empty; a second Shutdown succeeds too and leaves the members of the context
exactly as the first one left them. -/
theorem Shutdown_idempotent (m : Machine) :
    ∃ m1 m2, Shutdown m = .ok m1 ∧ Shutdown m1 = .ok m2 ∧
      (∀ c, m1.ctx.m_commandQueues.get c = none) ∧
      m1.ctx.m_frameFences = [] ∧
      m2.ctx = m1.ctx := by
  refine ⟨_, _, Shutdown_any m, Shutdown_any _, ?_, rfl, rfl⟩
  intro c
  cases c <;> rfl

/-! ## Resets come right after Waits -/

theorem forEachQueue_trace (call : HardwareQueueClass → Call) (f : CommandQueue → CommandQueue)
    (m m1 : Machine) (h : forEachQueue call f m = .ok m1) :
    m1.trace = m.trace ++ HardwareQueueClass.all.map call ∧
    m1.ctx.m_frameFences = m.ctx.m_frameFences ∧
    m1.ctx.m_currentFrameIndex = m.ctx.m_currentFrameIndex := by
  obtain ⟨⟨⟨g, c, p⟩, ring, comp, idx⟩, tr⟩ := m
  cases g <;> cases c <;> cases p <;>
    simp [forEachQueue, HardwareQueueClass.all, List.foldlM, onQueue, PerClass.get,
      PerClass.set, bind, Except.bind, pure, Except.pure] at h
  subst h
  simp [HardwareQueueClass.all]

theorem End_trace (m m1 : Machine) (h : End m = .ok m1) :
    ∃ next, m1.trace = m.trace ++ endCalls m.ctx.m_currentFrameIndex next := by
  unfold End at h
  simp only [bind, Except.bind, QueueGpuSignals, CalibrateClocks] at h
  cases hr : ringGet m m.ctx.m_currentFrameIndex with
  | error e => simp [hr] at h
  | ok fs0 =>
    simp only [hr] at h
    cases h1 : forEachQueue
        (fun c => Call.QueueGpuSignal c (FenceSetRef.frame m.ctx.m_currentFrameIndex) c) id m with
    | error e => simp [h1] at h
    | ok ma =>
      simp only [h1] at h
      cases h2 : forEachQueue Call.FlushCommands id ma with
      | error e => simp [h2] at h
      | ok mb =>
        simp only [h2] at h
        by_cases hz : mb.ctx.m_frameFences.length % uint32Size = 0
        · simp [hz] at h
        · simp only [hz, if_false] at h
          obtain ⟨ta, -, ia⟩ := forEachQueue_trace _ _ _ _ h1
          obtain ⟨tb, -, -⟩ := forEachQueue_trace _ _ _ _ h2
          split at h
          · simp at h
          · split at h
            · simp at h
            · obtain ⟨tc, -, -⟩ := forEachQueue_trace _ _ _ _ h
              refine ⟨(mb.ctx.m_currentFrameIndex + 1) % uint32Size
                % (mb.ctx.m_frameFences.length % uint32Size), ?_⟩
              rw [tc]
              simp only [Machine.emit, ringSet, tb, ta, endCalls, List.append_assoc]
              rfl

theorem ResetsFollowWaits_append {xs ys : List Call} (hx : ResetsFollowWaits xs)
    (hy : ResetsFollowWaits ys) : ResetsFollowWaits (xs ++ ys) := by
  intro i fs h
  by_cases hi : i < xs.length
  · rw [List.getElem?_append_left hi] at h
    obtain ⟨hs, hpos, hw⟩ := hx i fs h
    refine ⟨hs, hpos, ?_⟩
    rw [List.getElem?_append_left (by omega)]
    exact hw
  · rw [List.getElem?_append_right (by omega)] at h
    obtain ⟨hs, hpos, hw⟩ := hy (i - xs.length) fs h
    refine ⟨hs, by omega, ?_⟩
    rw [List.getElem?_append_right (by omega)]
    have e : i - 1 - xs.length = i - xs.length - 1 := by omega
    rw [e]
    exact hw

theorem ResetsFollowWaits_of_no_reset {xs : List Call}
    (hx : ∀ fs, Call.FenceSetReset fs ∉ xs) : ResetsFollowWaits xs := by
  intro i fs h
  exact absurd (List.getElem?_mem h) (hx fs)

theorem ResetsFollowWaits_nil : ResetsFollowWaits [] :=
  ResetsFollowWaits_of_no_reset (fun _ => List.not_mem_nil _)

theorem ResetsFollowWaits_endCalls (i next : Nat) : ResetsFollowWaits (endCalls i next) := by
  have e : endCalls i next =
      (HardwareQueueClass.all.map (fun c => Call.QueueGpuSignal c (.frame i) c)
        ++ HardwareQueueClass.all.map Call.FlushCommands ++ [Call.StoreFrameIndex next])
      ++ ([Call.FenceSetWait (.frame next), Call.FenceSetReset (.frame next)]
        ++ HardwareQueueClass.all.map Call.CalibrateClock) := by
    simp [endCalls]
  rw [e]
  refine ResetsFollowWaits_append (ResetsFollowWaits_of_no_reset ?_)
    (ResetsFollowWaits_append ?_ (ResetsFollowWaits_of_no_reset ?_))
  · intro fs
    simp [HardwareQueueClass.all]
  · intro k fs h
    match k with
    | 0 => simp at h
    | 1 =>
      simp at h
      subst h
      exact ⟨⟨next, rfl⟩, Nat.one_pos, rfl⟩
    | k + 2 => simp at h
  · intro fs
    simp [HardwareQueueClass.all]

theorem no_reset_map {α : Type} (l : List α) (f : α → Call)
    (hf : ∀ a fs, f a ≠ Call.FenceSetReset fs) : ∀ fs, Call.FenceSetReset fs ∉ l.map f := by
  intro fs hm
  obtain ⟨a, -, ha⟩ := List.mem_map.mp hm
  exact hf a fs ha

theorem onQueue_trace (c : HardwareQueueClass) (call : Call) (f : CommandQueue → CommandQueue)
    (m m1 : Machine) (h : onQueue c call f m = .ok m1) : m1.trace = m.trace ++ [call] := by
  unfold onQueue at h
  split at h
  · simp at h
  · simp at h
    subst h
    rfl

theorem UpdateCpuTimingStatistics_keeps (stats s : CpuTimingStatistics) (m m1 : Machine)
    (h : UpdateCpuTimingStatistics stats m = .ok (s, m1)) : m1 = m := by
  unfold UpdateCpuTimingStatistics at h
  simp only [bind, Except.bind, pure, Except.pure] at h
  split at h
  · simp at h
  · simp at h
    exact h.2.symm

theorem stepAny_calls (ff : Bool) (m m1 : Machine) (op : ContextOp)
    (h : stepAny ff m op = .ok m1) :
    ∃ calls, m1.trace = m.trace ++ calls ∧ ResetsFollowWaits calls := by
  cases op with
  | Init n =>
    simp only [stepAny, Init_ok] at h
    injection h with h
    subst h
    refine ⟨initCalls n, rfl, ResetsFollowWaits_of_no_reset ?_⟩
    intro fs
    simp [initCalls]
  | Shutdown =>
    simp only [stepAny, Shutdown_any] at h
    injection h with h
    subst h
    refine ⟨shutdownCalls m, rfl, ResetsFollowWaits_of_no_reset ?_⟩
    intro fs
    simp [shutdownCalls]
  | WaitForIdle =>
    simp only [stepAny, WaitForIdle_any] at h
    injection h with h
    subst h
    refine ⟨_, rfl, ResetsFollowWaits_of_no_reset ?_⟩
    intro fs
    simp
  | UpdateCpuTimingStatistics stats =>
    simp only [stepAny] at h
    cases hu : UpdateCpuTimingStatistics stats m with
    | error e => simp [hu, Except.map] at h
    | ok r =>
      simp only [hu, Except.map] at h
      injection h with h
      have := UpdateCpuTimingStatistics_keeps stats r.1 m r.2 hu
      rw [← h, this]
      exact ⟨[], by simp, ResetsFollowWaits_nil⟩
  | steady sop =>
    cases sop with
    | Begin =>
      obtain ⟨ht, -, -⟩ := forEachQueue_trace _ _ _ _ h
      refine ⟨_, ht, ResetsFollowWaits_of_no_reset ?_⟩
      intro fs
      simp [HardwareQueueClass.all]
    | IncrementFence c =>
      simp only [stepAny, step, IncrementFence, Except.map] at h
      injection h with h
      subst h
      refine ⟨_, rfl, ResetsFollowWaits_of_no_reset ?_⟩
      intro fs
      simp
    | End =>
      obtain ⟨next, ht⟩ := End_trace m m1 h
      exact ⟨_, ht, ResetsFollowWaits_endCalls _ _⟩
    | ExecuteWork c r =>
      simp only [stepAny, step, ExecuteWork, bind, Except.bind] at h
      cases ho : onQueue c (Call.QueueExecuteWork c r) id m with
      | error e => simp [ho] at h
      | ok ma =>
        simp only [ho] at h
        have ta := onQueue_trace _ _ _ _ _ ho
        cases ff
        · simp at h
          subst h
          refine ⟨_, ta, ResetsFollowWaits_of_no_reset ?_⟩
          intro fs
          simp
        · simp only [if_true, WaitForIdle_any] at h
          injection h with h
          subst h
          refine ⟨[Call.QueueExecuteWork c r] ++ (liveClasses ma).map Call.QueueWaitForIdle,
            by simp [ta], ResetsFollowWaits_of_no_reset ?_⟩
          intro fs
          simp

theorem runAny_calls (ff : Bool) (ops : List ContextOp) :
    ∀ m m1 : Machine, runAny ff m ops = .ok m1 →
      ∃ calls, m1.trace = m.trace ++ calls ∧ ResetsFollowWaits calls := by
  induction ops with
  | nil =>
    intro m m1 h
    simp only [runAny, List.foldlM, pure, Except.pure] at h
    injection h with h
    subst h
    exact ⟨[], by simp, ResetsFollowWaits_nil⟩
  | cons op ops ih =>
    intro m m1 h
    simp only [runAny, List.foldlM, bind, Except.bind] at h
    cases hs : stepAny ff m op with
    | error e => simp [hs] at h
    | ok ma =>
      simp only [hs] at h
      obtain ⟨c1, t1, p1⟩ := stepAny_calls ff m ma op hs
      obtain ⟨c2, t2, p2⟩ := ih ma m1 h
      exact ⟨c1 ++ c2, by rw [t2, t1, List.append_assoc], ResetsFollowWaits_append p1 p2⟩

theorem run_eq_runAny (ff : Bool) (ops : List Op) :
    ∀ m : Machine, run ff m ops = runAny ff m (ops.map ContextOp.steady) := by
  induction ops with
  | nil => intro m; rfl
  | cons op ops ih =>
    intro m
    simp only [run, runAny, List.map_cons, List.foldlM, stepAny, bind, Except.bind]
    cases step ff m op with
    | error e => rfl
    | ok ma => exact ih ma

theorem compiled_not_reset {calls : List Call} (h : ResetsFollowWaits calls) :
    Call.FenceSetReset FenceSetRef.compiled ∉ calls := by
  intro hm
  obtain ⟨i, hi⟩ := List.getElem?_of_mem hm
  obtain ⟨⟨slot, hs⟩, -, -⟩ := h i _ hi
  cases hs

/-- C23: in every run of member functions of the context (Init, Shutdown, WaitForIdle,
UpdateCpuTimingStatistics, Begin, ExecuteWork, IncrementFence, End, with or without forced
flushing) that returns without fault, started on any context, every Reset in the calls made
is a Reset of a fence set of the frame ring and stands right after a Wait on that same fence
set, and the compiled fence set is never reset; and on an initialised context every sequence
of Begin, ExecuteWork, IncrementFence and End calls does return without fault, with the same
property. -/
theorem Reset_only_right_after_Wait (ff : Bool) (m m1 : Machine) (ops : List ContextOp)
    (hrun : runAny ff m ops = .ok m1) (m2 : Machine) (h2 : Initialised m2)
    (sops : List Op) :
    (∃ calls, m1.trace = m.trace ++ calls ∧ ResetsFollowWaits calls ∧
      Call.FenceSetReset FenceSetRef.compiled ∉ calls) ∧
    (∃ calls, callsOf (fun x => run ff x sops) m2 = .ok calls ∧ ResetsFollowWaits calls ∧
      Call.FenceSetReset FenceSetRef.compiled ∉ calls) := by
  constructor
  · obtain ⟨calls, t, p⟩ := runAny_calls ff ops m m1 hrun
    exact ⟨calls, t, p, compiled_not_reset p⟩
  · have hr := run_ok ff sops m2 h2
    have hr1 := hr
    rw [run_eq_runAny] at hr1
    obtain ⟨calls, t, p⟩ := runAny_calls ff _ m2 _ hr1
    rw [run_trace] at t
    have e := List.append_cancel_left t
    rw [← e] at p
    exact ⟨_, callsOf_run ff m2 h2 sops, p, compiled_not_reset p⟩

/-- Witness for C23: a run from a never-initialised context through Init, two frames and
Shutdown returns without fault. -/
theorem Reset_only_right_after_Wait_witness :
    (∃ calls,
      ((runAny false default
          [ContextOp.Init 3, .steady .Begin, .steady (.ExecuteWork .Graphics 1), .steady .End,
           .WaitForIdle, .steady .End, .Shutdown]).toOption.getD default).trace
        = (default : Machine).trace ++ calls ∧
      ResetsFollowWaits calls ∧ Call.FenceSetReset FenceSetRef.compiled ∉ calls) ∧
    (∃ calls, callsOf (fun x => run false x [Op.Begin, Op.End]) (initState 3 default)
        = .ok calls ∧
      ResetsFollowWaits calls ∧ Call.FenceSetReset FenceSetRef.compiled ∉ calls) :=
  Reset_only_right_after_Wait false default _
    [ContextOp.Init 3, .steady .Begin, .steady (.ExecuteWork .Graphics 1), .steady .End,
     .WaitForIdle, .steady .End, .Shutdown] rfl (initState 3 default) (by decide)
    [Op.Begin, Op.End]

/-! ## Signals and wait-then-reset alternate on every slot -/

theorem alternates_append (p : SlotPhase) (xs ys : List SlotEvent) :
    alternates p (xs ++ ys) = (alternates p xs).bind (fun q => alternates q ys) := by
  simp only [alternates, List.foldlM_append]
  rfl

theorem slotEvents_append (s : Nat) (xs ys : List Call) :
    slotEvents s (xs ++ ys) = slotEvents s xs ++ slotEvents s ys := by
  simp [slotEvents, List.filterMap_append]

theorem slotEvents_workCalls (s : Nat) (ff : Bool)
    (work : List (HardwareQueueClass × ExecuteWorkRequest)) :
    slotEvents s (workCalls ff work) = [] := by
  induction work with
  | nil => rfl
  | cons w ws ih =>
    cases ff
    · simpa [workCalls, slotEvents] using ih
    · simpa [workCalls, slotEvents, HardwareQueueClass.all] using ih

theorem slotEvents_endCalls (s i next : Nat) :
    slotEvents s (endCalls i next) =
      (if i = s then [SlotEvent.signal .Graphics, SlotEvent.signal .Compute,
          SlotEvent.signal .Copy] else [])
        ++ (if next = s then [SlotEvent.wait, SlotEvent.reset] else []) := by
  by_cases h1 : i = s <;> by_cases h2 : next = s <;>
    simp [slotEvents, endCalls, HardwareQueueClass.all, List.filterMap_cons,
      List.filterMap_append, h1, h2]

theorem alternates_endCalls (s i next : Nat) :
    alternates (if s = i then SlotPhase.ready else SlotPhase.signaled)
        (slotEvents s (endCalls i next))
      = some (if s = next then SlotPhase.ready else SlotPhase.signaled) := by
  rw [slotEvents_endCalls]
  by_cases h1 : i = s <;> by_cases h2 : next = s
  · subst h1
    subst h2
    simp [alternates, List.foldlM, SlotPhase.advance]
  · subst h1
    have h2a : ¬ i = next := fun e => h2 e.symm
    simp [alternates, List.foldlM, SlotPhase.advance, h2, h2a]
  · subst h2
    have h1a : ¬ next = i := fun e => h1 e.symm
    simp [alternates, List.foldlM, SlotPhase.advance, h1, h1a]
  · have h1a : ¬ s = i := fun e => h1 e.symm
    have h2a : ¬ s = next := fun e => h2 e.symm
    simp [alternates, List.foldlM, SlotPhase.advance, h1, h1a, h2, h2a]

theorem alternates_opCalls (ff : Bool) (m : Machine) (s : Nat) (op : Op) :
    alternates (phaseAt m s) (slotEvents s (opCalls ff m op))
      = some (phaseAt (opState ff m op) s) := by
  cases op with
  | Begin => rfl
  | IncrementFence c => rfl
  | ExecuteWork c r =>
    simp only [opCalls, slotEvents_workCalls]
    rfl
  | End => exact alternates_endCalls s _ _

theorem alternates_runCalls (ff : Bool) (s : Nat) (ops : List Op) :
    ∀ m : Machine, alternates (phaseAt m s) (slotEvents s (runCalls ff m ops))
      = some (phaseAt (ops.foldl (opState ff) m) s) := by
  induction ops with
  | nil => intro m; rfl
  | cons op ops ih =>
    intro m
    rw [runCalls, slotEvents_append, alternates_append, alternates_opCalls, List.foldl_cons]
    exact ih _

/-- C25: in a run of End calls made after Init (frame count at least two, ring size
R = FrameCountMax - 1), on every ring slot the events follow the cycle signal (one per
class, by one End), Wait, Reset without a violation: a slot is not signaled again before
it has been waited on and reset, and not waited on or reset again before it has been
signaled again.  Slot 0 enters the cycle at the signal, every other slot at the Wait.
After n Ends the slot n mod R is free and every other slot is signaled. -/
theorem slot_signals_and_waits_alternate (FrameCountMax : Nat) (h2 : 2 ≤ FrameCountMax)
    (hu : FrameCountMax < uint32Size) (m0 : Machine) (n s : Nat) :
    ∃ mi calls, Init FrameCountMax m0 = .ok mi ∧
      callsOf (fun x => runEnds x n) mi = .ok calls ∧
      alternates (startPhase s) (slotEvents s calls)
        = some (if s = n % (FrameCountMax - 1) then SlotPhase.ready else SlotPhase.signaled) := by
  have hi := Initialised_initState FrameCountMax m0 h2 (Nat.le_of_lt hu)
  have hlen : (initState FrameCountMax m0).ctx.m_frameFences.length = FrameCountMax - 1 := by
    simp [initState]
  have hc := callsOf_run false (initState FrameCountMax m0) hi (List.replicate n Op.End)
  refine ⟨_, _, Init_ok FrameCountMax m0, hc, ?_⟩
  have ha := alternates_runCalls false s (List.replicate n Op.End) (initState FrameCountMax m0)
  have hidx := ends_index n _ hi
  rw [hlen] at hidx
  simp only [phaseAt, hidx] at ha
  simpa [startPhase, initState] using ha

/-- Witness for C25: ring size 2, five Ends, slot 1. -/
theorem slot_signals_and_waits_alternate_witness :
    ∃ mi calls, Init 3 default = .ok mi ∧
      callsOf (fun x => runEnds x 5) mi = .ok calls ∧
      alternates (startPhase 1) (slotEvents 1 calls)
        = some (if 1 = 5 % (3 - 1) then SlotPhase.ready else SlotPhase.signaled) :=
  slot_signals_and_waits_alternate 3 (by decide) (by decide) default 5 1

/-! ## Fence values between two Inits -/

theorem forEachQueue_compiled (call : HardwareQueueClass → Call)
    (f : CommandQueue → CommandQueue) (m m1 : Machine)
    (h : forEachQueue call f m = .ok m1) :
    m1.ctx.m_compiledFences = m.ctx.m_compiledFences := by
  obtain ⟨⟨⟨g, c, p⟩, ring, comp, idx⟩, tr⟩ := m
  cases g <;> cases c <;> cases p <;>
    simp [forEachQueue, HardwareQueueClass.all, List.foldlM, onQueue, PerClass.get,
      PerClass.set, bind, Except.bind, pure, Except.pure] at h
  subst h
  rfl

theorem onQueue_compiled (c : HardwareQueueClass) (call : Call)
    (f : CommandQueue → CommandQueue) (m m1 : Machine) (h : onQueue c call f m = .ok m1) :
    m1.ctx.m_compiledFences = m.ctx.m_compiledFences := by
  unfold onQueue at h
  split at h
  · simp at h
  · simp at h
    subst h
    rfl

theorem End_compiled (m m1 : Machine) (h : End m = .ok m1) :
    m1.ctx.m_compiledFences = m.ctx.m_compiledFences := by
  unfold End at h
  simp only [bind, Except.bind, QueueGpuSignals, CalibrateClocks] at h
  cases hr : ringGet m m.ctx.m_currentFrameIndex with
  | error e => simp [hr] at h
  | ok fs0 =>
    simp only [hr] at h
    cases h1 : forEachQueue
        (fun c => Call.QueueGpuSignal c (FenceSetRef.frame m.ctx.m_currentFrameIndex) c) id m with
    | error e => simp [h1] at h
    | ok ma =>
      simp only [h1] at h
      cases h2 : forEachQueue Call.FlushCommands id ma with
      | error e => simp [h2] at h
      | ok mb =>
        simp only [h2] at h
        by_cases hz : mb.ctx.m_frameFences.length % uint32Size = 0
        · simp [hz] at h
        · simp only [hz, if_false] at h
          have ca := forEachQueue_compiled _ _ _ _ h1
          have cb := forEachQueue_compiled _ _ _ _ h2
          split at h
          · simp at h
          · split at h
            · simp at h
            · have cc := forEachQueue_compiled _ _ _ _ h
              rw [cc]
              simp only [Machine.emit, ringSet]
              rw [cb, ca]

theorem stepAny_compiled (ff : Bool) (m m1 : Machine) (op : ContextOp)
    (h : stepAny ff m op = .ok m1) (hinit : ∀ n, op ≠ ContextOp.Init n)
    (hinc : ∀ c, op ≠ ContextOp.steady (Op.IncrementFence c)) :
    m1.ctx.m_compiledFences = m.ctx.m_compiledFences := by
  cases op with
  | Init n => exact absurd rfl (hinit n)
  | Shutdown =>
    simp only [stepAny, Shutdown_any] at h
    injection h with h
    subst h
    rfl
  | WaitForIdle =>
    simp only [stepAny, WaitForIdle_any] at h
    injection h with h
    subst h
    rfl
  | UpdateCpuTimingStatistics stats =>
    simp only [stepAny] at h
    cases hu : UpdateCpuTimingStatistics stats m with
    | error e => simp [hu, Except.map] at h
    | ok r =>
      simp only [hu, Except.map] at h
      injection h with h
      have := UpdateCpuTimingStatistics_keeps stats r.1 m r.2 hu
      rw [← h, this]
  | steady sop =>
    cases sop with
    | Begin => exact forEachQueue_compiled _ _ _ _ h
    | IncrementFence c => exact absurd rfl (hinc c)
    | End => exact End_compiled m m1 h
    | ExecuteWork c r =>
      simp only [stepAny, step, ExecuteWork, bind, Except.bind] at h
      cases ho : onQueue c (Call.QueueExecuteWork c r) id m with
      | error e => simp [ho] at h
      | ok ma =>
        simp only [ho] at h
        have ca := onQueue_compiled _ _ _ _ _ ho
        cases ff
        · simp at h
          subst h
          exact ca
        · simp only [if_true, WaitForIdle_any] at h
          injection h with h
          subst h
          exact ca

theorem Increasing_of_same {acc acc1 : List (HardwareQueueClass × Nat) × Machine}
    (h : Increasing acc) (h1 : acc1.1 = acc.1)
    (h2 : acc1.2.ctx.m_compiledFences = acc.2.ctx.m_compiledFences) : Increasing acc1 := by
  intro c
  rw [h1, h2]
  exact h c

theorem Increasing_stepAnyCollect (ff : Bool)
    (acc acc1 : List (HardwareQueueClass × Nat) × Machine) (op : ContextOp)
    (hinit : ∀ n, op ≠ ContextOp.Init n) (h : stepAnyCollect ff acc op = .ok acc1)
    (hi : Increasing acc) : Increasing acc1 := by
  by_cases hinc : ∃ c, op = ContextOp.steady (Op.IncrementFence c)
  · obtain ⟨c, hc⟩ := hinc
    subst hc
    have e : stepAnyCollect ff acc (ContextOp.steady (Op.IncrementFence c))
        = .ok (collectState ff acc (Op.IncrementFence c)) := rfl
    rw [e] at h
    injection h with h
    rw [← h]
    exact Increasing_collectState ff acc hi _
  · have hinc1 : ∀ c, op ≠ ContextOp.steady (Op.IncrementFence c) :=
      fun c e => hinc ⟨c, e⟩
    have e : stepAnyCollect ff acc op
        = (stepAny ff acc.2 op >>= fun m1 => pure (acc.1, m1)) := by
      cases op with
      | steady sop =>
        cases sop with
        | IncrementFence c => exact absurd rfl (hinc1 c)
        | Begin => rfl
        | End => rfl
        | ExecuteWork c r => rfl
      | Init n => rfl
      | Shutdown => rfl
      | WaitForIdle => rfl
      | UpdateCpuTimingStatistics stats => rfl
    rw [e] at h
    cases hs : stepAny ff acc.2 op with
    | error err => simp [hs, bind, Except.bind] at h
    | ok m1 =>
      simp only [hs, bind, Except.bind, pure, Except.pure] at h
      injection h with h
      have hc := stepAny_compiled ff acc.2 m1 op hs hinit hinc1
      refine Increasing_of_same hi ?_ ?_
      · rw [← h]
      · rw [← h]
        exact hc

theorem Increasing_runAnyCollect (ff : Bool) (ops : List ContextOp) :
    ∀ acc acc1 : List (HardwareQueueClass × Nat) × Machine,
      (∀ n, ContextOp.Init n ∉ ops) → ops.foldlM (stepAnyCollect ff) acc = .ok acc1 →
      Increasing acc → Increasing acc1 := by
  induction ops with
  | nil =>
    intro acc acc1 _ h hi
    simp only [List.foldlM, pure, Except.pure] at h
    injection h with h
    rw [← h]
    exact hi
  | cons op ops ih =>
    intro acc acc1 hno h hi
    simp only [List.foldlM, bind, Except.bind] at h
    cases hs : stepAnyCollect ff acc op with
    | error e => simp [hs] at h
    | ok acc2 =>
      simp only [hs] at h
      have hop : ∀ n, op ≠ ContextOp.Init n := by
        intro n e
        exact hno n (by simp [e])
      have hrest : ∀ n, ContextOp.Init n ∉ ops := by
        intro n hm
        exact hno n (List.mem_cons_of_mem _ hm)
      exact ih acc2 acc1 hrest h (Increasing_stepAnyCollect ff acc acc2 op hop hs hi)

/-- Counterexample to C11: a run that calls Init, IncrementFence(Compute), Init again and
IncrementFence(Compute) again returns the value 1 both times, so the second value is not
greater than the first: Init re-initialises the compiled fence set. -/
theorem IncrementFence_after_second_Init_repeats_value :
    ∃ m1, runAnyCollect false default
        [ContextOp.Init 3, .steady (.IncrementFence .Compute), ContextOp.Init 3,
         .steady (.IncrementFence .Compute)]
      = .ok ([(HardwareQueueClass.Compute, 1), (HardwareQueueClass.Compute, 1)], m1) ∧
    ¬ List.Pairwise (fun a b => a < b)
        (returnedFor .Compute [(HardwareQueueClass.Compute, 1), (HardwareQueueClass.Compute, 1)]) :=
  ⟨_, rfl, by decide⟩

/-- C11 as amended: in every run of member functions of the context (Shutdown, WaitForIdle,
UpdateCpuTimingStatistics, Begin, ExecuteWork, IncrementFence, End, with or without forced
flushing) that does not call Init and returns without fault, started on any context, the
values that the IncrementFence(c) calls return are strictly increasing in call order for
every class c: each is greater than every value returned for c before it.  On an initialised
context every sequence of Begin, ExecuteWork, IncrementFence and End calls does return
without fault, with the same property, and on any context two consecutive
IncrementFence(Compute) calls return two strictly increasing values. -/
theorem IncrementFence_returns_increase_without_Init (ff : Bool) (m m1 : Machine)
    (ops : List ContextOp) (rets : List (HardwareQueueClass × Nat))
    (hno : ∀ n, ContextOp.Init n ∉ ops)
    (hrun : runAnyCollect ff m ops = .ok (rets, m1))
    (m2 : Machine) (h2 : Initialised m2) (sops : List Op)
    (c : HardwareQueueClass) (mb : Machine) :
    List.Pairwise (fun a b => a < b) (returnedFor c rets) ∧
    (∃ rets2 m3, runCollect ff m2 sops = .ok (rets2, m3) ∧ run ff m2 sops = .ok m3 ∧
      List.Pairwise (fun a b => a < b) (returnedFor c rets2)) ∧
    (∃ v1 ma v2 mc, IncrementFence .Compute mb = .ok (v1, ma) ∧
      IncrementFence .Compute ma = .ok (v2, mc) ∧ v1 < v2) := by
  refine ⟨?_, steady_returns_increase ff m2 h2 sops c, ?_⟩
  · have h0 : Increasing (([], m) : List (HardwareQueueClass × Nat) × Machine) := by
      intro d
      exact ⟨List.Pairwise.nil, fun v hv => by simp [returnedFor] at hv⟩
    exact (Increasing_runAnyCollect ff ops _ _ hno hrun h0 c).1
  · refine ⟨_, _, _, _, rfl, rfl, ?_⟩
    simp [Fence.Increment, FenceSet.GetFence, PerClass.get_set]

/-- Witness for C11: a run without Init on the context left by Init, with increments of the
Compute fence before and after WaitForIdle, a frame and Shutdown. -/
theorem IncrementFence_returns_increase_without_Init_witness :
    List.Pairwise (fun a b => a < b)
      (returnedFor .Compute
        [(HardwareQueueClass.Compute, 1), (HardwareQueueClass.Copy, 1),
         (HardwareQueueClass.Compute, 2), (HardwareQueueClass.Compute, 3)]) ∧
    (∃ rets2 m3,
      runCollect false (initState 3 default)
        [Op.IncrementFence .Compute, Op.Begin, Op.IncrementFence .Compute, Op.End]
        = .ok (rets2, m3) ∧
      run false (initState 3 default)
        [Op.IncrementFence .Compute, Op.Begin, Op.IncrementFence .Compute, Op.End] = .ok m3 ∧
      List.Pairwise (fun a b => a < b) (returnedFor .Compute rets2)) ∧
    (∃ v1 ma v2 mc, IncrementFence .Compute default = .ok (v1, ma) ∧
      IncrementFence .Compute ma = .ok (v2, mc) ∧ v1 < v2) :=
  IncrementFence_returns_increase_without_Init false (initState 3 default)
    ((runAnyCollect false (initState 3 default)
        [ContextOp.steady (.IncrementFence .Compute), .WaitForIdle,
         .steady (.IncrementFence .Copy), .steady .Begin,
         .steady (.IncrementFence .Compute), .steady .End, .Shutdown,
         .steady (.IncrementFence .Compute)]).toOption.getD default).2
    [ContextOp.steady (.IncrementFence .Compute), .WaitForIdle,
     .steady (.IncrementFence .Copy), .steady .Begin,
     .steady (.IncrementFence .Compute), .steady .End, .Shutdown,
     .steady (.IncrementFence .Compute)]
    [(HardwareQueueClass.Compute, 1), (HardwareQueueClass.Copy, 1),
     (HardwareQueueClass.Compute, 2), (HardwareQueueClass.Compute, 3)]
    (by simp) rfl (initState 3 default) (by decide)
    [Op.IncrementFence .Compute, Op.Begin, Op.IncrementFence .Compute, Op.End]
    .Compute default

end AZ.DX12

namespace ScriptCanvas

/-- C29: for every variable id v, the event constructed from v returns v from
GetVariableId and from GetHighlightVariableId, has the severity Error, and CanAutoFix
returns true. -/
theorem InvalidVariableTypeEvent_reports_its_variable (v : VariableId) :
    (InvalidVariableTypeEvent.new v).GetVariableId = v ∧
    (InvalidVariableTypeEvent.new v).GetHighlightVariableId = v ∧
    (InvalidVariableTypeEvent.new v).toValidationEvent.GetSeverity = ValidationSeverity.Error ∧
    (InvalidVariableTypeEvent.new v).CanAutoFix = true :=
  ⟨rfl, rfl, rfl, rfl⟩

end ScriptCanvas

namespace PathUtil

theorem AddSlash_concat (xs : List Char) (c : Char) :
    AddSlash (xs ++ [c]) =
      if c = '/' then xs ++ [c]
      else if c = '\\' then xs ++ ['/']
      else xs ++ [c] ++ ['/'] := by
  have hlen : (xs ++ [c]).length - 1 = xs.length := by simp
  have hget : (xs ++ [c])[xs.length]? = some c := by simp
  have htake : (xs ++ [c]).take xs.length = xs := by simp
  unfold AddSlash
  rw [hlen, hget, htake]
  by_cases h1 : c = '/'
  · simp [h1]
  · by_cases h2 : c = '\\'
    · simp [h2]
    · simp [h1, h2]

theorem AddSlash_ends_with_slash (xs : List Char) : AddSlash (xs ++ ['/']) = xs ++ ['/'] := by
  rw [AddSlash_concat]
  simp

/-- C30: AddSlash applied twice gives the same as applied once; AddSlash of the empty
string is the empty string; and for a non-empty string p the result ends with a slash and is
p with its trailing backslash replaced by a slash when p ends with a backslash, p itself
when p ends with a slash, and p with a slash appended otherwise. -/
theorem AddSlash_idempotent_and_normalising (p : List Char) :
    AddSlash (AddSlash p) = AddSlash p ∧
    AddSlash [] = [] ∧
    (p ≠ [] →
      (AddSlash p).getLast? = some '/' ∧
      ((p.getLast? = some '\\' ∧ AddSlash p = p.dropLast ++ ['/']) ∨
       (p.getLast? = some '/' ∧ AddSlash p = p) ∨
       (p.getLast? ≠ some '/' ∧ p.getLast? ≠ some '\\' ∧ AddSlash p = p ++ ['/']))) := by
  have hnil : AddSlash [] = [] := rfl
  rcases List.eq_nil_or_concat p with hp | ⟨xs, c, hp⟩
  · subst hp
    exact ⟨by rw [hnil, hnil], hnil, fun h => absurd rfl h⟩
  · rw [List.concat_eq_append] at hp
    subst hp
    by_cases h1 : c = '/'
    · subst h1
      refine ⟨by rw [AddSlash_ends_with_slash, AddSlash_ends_with_slash], hnil, fun _ => ?_⟩
      rw [AddSlash_ends_with_slash]
      exact ⟨by simp, Or.inr (Or.inl ⟨by simp, rfl⟩)⟩
    · by_cases h2 : c = '\\'
      · subst h2
        have e : AddSlash (xs ++ ['\\']) = xs ++ ['/'] := by
          rw [AddSlash_concat]; simp
        refine ⟨by rw [e, AddSlash_ends_with_slash], hnil, fun _ => ?_⟩
        rw [e]
        exact ⟨by simp, Or.inl ⟨by simp, by simp⟩⟩
      · have e : AddSlash (xs ++ [c]) = (xs ++ [c]) ++ ['/'] := by
          rw [AddSlash_concat]; simp [h1, h2]
        refine ⟨by rw [e, AddSlash_ends_with_slash], hnil, fun _ => ?_⟩
        rw [e]
        exact ⟨by simp, Or.inr (Or.inr ⟨by simp [h1], by simp [h2], rfl⟩)⟩

/-- Witness for C30: the path `C:\temp\` becomes `C:\temp/`. -/
theorem AddSlash_idempotent_and_normalising_witness :
    AddSlash (AddSlash ['C', ':', '\\', 't', 'e', 'm', 'p', '\\'])
      = AddSlash ['C', ':', '\\', 't', 'e', 'm', 'p', '\\'] ∧
    AddSlash ['C', ':', '\\', 't', 'e', 'm', 'p', '\\']
      = ['C', ':', '\\', 't', 'e', 'm', 'p', '/'] :=
  ⟨(AddSlash_idempotent_and_normalising ['C', ':', '\\', 't', 'e', 'm', 'p', '\\']).1, by decide⟩

end PathUtil

namespace EMStudio

theorem paintGL_keeps_null_active_view_widget (i : PaintInputs)
    (h : i.activeViewWidget = none) : (paintGL i).activeViewWidget = none := by
  unfold paintGL
  simp only []
  split
  · exact h
  · split
    · exact h
    · split
      · exact h
      · rfl

theorem paintGL_ends_native_painting_with_render_util (i : PaintInputs)
    (hr : i.renderUtil = true)
    (hb : PaintCall.beginNativePainting ∈ (paintGL i).calls) :
    PaintCall.endNativePainting ∈ (paintGL i).calls := by
  obtain ⟨hid, gm, cam, ru, ortho, rec, play, focus, fps, w, act⟩ := i
  simp only at hr
  subst hr
  cases hid <;> cases gm <;> cases cam <;> cases fps <;> simp [paintGL] at hb ⊢

/-- C28, as the code runs it on the failing input: a shown widget with a graphics manager
and a camera but no render utility calls beginNativePainting and returns without calling
endNativePainting; the active view widget, null on entry, is still null. -/
theorem paintGL_returns_inside_native_painting :
    (paintGL paintInputsWithoutRenderUtil).calls
      = [PaintCall.setRenderHint, PaintCall.stampRenderTimer, PaintCall.beginNativePainting,
         PaintCall.graphics "SetGBuffer"] ∧
    PaintCall.beginNativePainting ∈ (paintGL paintInputsWithoutRenderUtil).calls ∧
    PaintCall.endNativePainting ∉ (paintGL paintInputsWithoutRenderUtil).calls ∧
    (paintGL paintInputsWithoutRenderUtil).activeViewWidget = none := by
  decide

end EMStudio
